import Mathlib

/-!
Verification development for the TagoTiP SDK codec and secure envelope.

The Rust sources (tagotip-codec, tagotip-secure) are embedded shallowly:
byte slices of the plaintext codec become lists of characters, byte
vectors of the envelope layer become lists of natural numbers below 256,
fallible functions return an Except value carrying the same error kinds
as the Rust enums, and the cursor-based frame writer is modelled as pure
list concatenation (the behaviour of the writer on a sufficiently large
buffer).  The external AEAD library primitives used by tagotip-secure
are not part of the repository; the envelope functions are therefore
parameterised by the primitive pair, and theorems about sealing and
opening state their assumptions on that pair explicitly.
-/

namespace TagoTiP

/-- Mirror of tagotip-codec error::ParseErrorKind. -/
inductive ParseErrorKind where
  | emptyFrame
  | nulByte
  | invalidMethod
  | invalidSeq
  | invalidAuth
  | invalidSerial
  | missingBody
  | invalidModifier
  | invalidVariableBlock
  | invalidVariable
  | invalidPassthrough
  | invalidMetadata
  | invalidField
  | invalidAck
  | tooManyItems
  | frameTooLarge
deriving DecidableEq, Repr

/-- Mirror of tagotip-codec error::ParseError (kind plus byte position). -/
structure ParseError where
  kind : ParseErrorKind
  position : Nat
deriving DecidableEq, Repr

deriving instance DecidableEq for Except

/-- Kind of a parse result, if it is an error. -/
def errKind {α : Type} : Except ParseError α → Option ParseErrorKind
  | .error e => some e.kind
  | .ok _ => none

-- Constants from tagotip-codec consts.rs and types.rs.

/-- consts::MAX_VARIABLES. -/
def MAX_VARIABLES : Nat := 100
/-- consts::MAX_META_PAIRS. -/
def MAX_META_PAIRS : Nat := 32
/-- consts::MAX_VARNAME_LEN. -/
def MAX_VARNAME_LEN : Nat := 100
/-- consts::MAX_SERIAL_LEN. -/
def MAX_SERIAL_LEN : Nat := 100
/-- consts::MAX_GROUP_LEN. -/
def MAX_GROUP_LEN : Nat := 100
/-- consts::MAX_META_KEY_LEN. -/
def MAX_META_KEY_LEN : Nat := 100
/-- consts::MAX_UNIT_LEN. -/
def MAX_UNIT_LEN : Nat := 25
/-- consts::MAX_FRAME_SIZE. -/
def MAX_FRAME_SIZE : Nat := 16384
/-- consts::AUTH_TOKEN_LEN. -/
def AUTH_TOKEN_LEN : Nat := 34
/-- consts::MAX_UPLINK_FIELDS. -/
def MAX_UPLINK_FIELDS : Nat := 8
/-- types::MAX_TOTAL_META. -/
def MAX_TOTAL_META : Nat := 512

-- Character classes (the u8::is_ascii_* predicates used by the sources).

/-- u8::is_ascii_digit. -/
def isAsciiDigit (c : Char) : Bool := 48 ≤ c.toNat && c.toNat ≤ 57
/-- u8::is_ascii_lowercase. -/
def isAsciiLowercase (c : Char) : Bool := 97 ≤ c.toNat && c.toNat ≤ 122
/-- u8::is_ascii_uppercase. -/
def isAsciiUppercase (c : Char) : Bool := 65 ≤ c.toNat && c.toNat ≤ 90
/-- u8::is_ascii_alphanumeric. -/
def isAsciiAlphanumeric (c : Char) : Bool :=
  isAsciiDigit c || isAsciiLowercase c || isAsciiUppercase c
/-- u8::is_ascii_hexdigit. -/
def isAsciiHexdigit (c : Char) : Bool :=
  isAsciiDigit c || (97 ≤ c.toNat && c.toNat ≤ 102) || (65 ≤ c.toNat && c.toNat ≤ 70)
/-- The range check for 1-9 used by validate::validate_number. -/
def isOneNine (c : Char) : Bool := 49 ≤ c.toNat && c.toNat ≤ 57

-- Data model from tagotip-codec types.rs.

/-- types::Method. -/
inductive Method where
  | push
  | pull
  | ping
deriving DecidableEq, Repr

/-- types::Operator. -/
inductive Operator where
  | number
  | string
  | boolean
  | location
deriving DecidableEq, Repr

/-- types::Value. -/
inductive Value where
  | number (s : List Char)
  | string (s : List Char)
  | boolean (b : Bool)
  | location (lat lng : List Char) (alt : Option (List Char))
deriving DecidableEq, Repr

/-- types::MetaPair. -/
structure MetaPair where
  key : List Char
  value : List Char
deriving DecidableEq, Repr

/-- types::MetaRange (start and length into the shared metadata pool). -/
structure MetaRange where
  start : Nat
  len : Nat
deriving DecidableEq, Repr

/-- types::Variable. -/
structure Variable where
  name : List Char
  operator : Operator
  value : Value
  unit : Option (List Char)
  timestamp : Option (List Char)
  group : Option (List Char)
  meta : Option MetaRange
deriving DecidableEq, Repr

/-- types::PassthroughEncoding. -/
inductive PassthroughEncoding where
  | hex
  | base64
deriving DecidableEq, Repr

/-- types::PassthroughBody. -/
structure PassthroughBody where
  encoding : PassthroughEncoding
  data : List Char
deriving DecidableEq, Repr

/-- types::StructuredBody. -/
structure StructuredBody where
  group : Option (List Char)
  timestamp : Option (List Char)
  bodyMeta : Option MetaRange
  «variables» : List Variable
  metaPool : List MetaPair
deriving DecidableEq, Repr

/-- types::PushBody. -/
inductive PushBody where
  | structured (b : StructuredBody)
  | passthrough (b : PassthroughBody)
deriving DecidableEq, Repr

/-- types::PullBody. -/
structure PullBody where
  «variables» : List (List Char)
deriving DecidableEq, Repr

/-- types::UplinkFrame. -/
structure UplinkFrame where
  method : Method
  seq : Option Nat
  auth : List Char
  serial : List Char
  pushBody : Option PushBody
  pullBody : Option PullBody
deriving DecidableEq, Repr

/-- types::AckStatus. -/
inductive AckStatus where
  | ok
  | pong
  | cmd
  | err
deriving DecidableEq, Repr

/-- types::ErrorCode. -/
inductive ErrorCode where
  | invalidToken
  | invalidMethod
  | invalidPayload
  | invalidSeq
  | deviceNotFound
  | variableNotFound
  | rateLimited
  | authFailed
  | unsupportedVersion
  | payloadTooLarge
  | serverError
  | unknown
deriving DecidableEq, Repr

/-- types::AckDetail. -/
inductive AckDetail where
  | count (n : Nat)
  | «variables» (s : List Char)
  | command (s : List Char)
  | error (code : ErrorCode) (text : List Char)
  | raw (s : List Char)
deriving DecidableEq, Repr

/-- types::AckFrame. -/
structure AckFrame where
  seq : Option Nat
  status : AckStatus
  detail : Option AckDetail
deriving DecidableEq, Repr

-- Validators from tagotip-codec validate.rs.

/-- validate::validate_varname. -/
def validateVarname (name : List Char) (pos : Nat) : Except ParseError Unit :=
  if name = [] then .error ⟨.invalidField, pos⟩
  else if MAX_VARNAME_LEN < name.length then .error ⟨.invalidField, pos⟩
  else if name.all (fun b => isAsciiLowercase b || isAsciiDigit b || b = '_') then .ok ()
  else .error ⟨.invalidField, pos⟩

/-- validate::validate_serial. -/
def validateSerial (serial : List Char) (pos : Nat) : Except ParseError Unit :=
  if serial = [] then .error ⟨.invalidSerial, pos⟩
  else if MAX_SERIAL_LEN < serial.length then .error ⟨.invalidSerial, pos⟩
  else if serial.all (fun b => isAsciiAlphanumeric b || b = '-' || b = '_') then .ok ()
  else .error ⟨.invalidSerial, pos⟩

/-- validate::validate_group. -/
def validateGroup (group : List Char) (pos : Nat) : Except ParseError Unit :=
  if group = [] then .error ⟨.invalidField, pos⟩
  else if MAX_GROUP_LEN < group.length then .error ⟨.invalidField, pos⟩
  else if group.all (fun b => isAsciiLowercase b || isAsciiDigit b || b = '_') then .ok ()
  else .error ⟨.invalidField, pos⟩

/-- validate::validate_meta_key. -/
def validateMetaKey (key : List Char) (pos : Nat) : Except ParseError Unit :=
  if key = [] then .error ⟨.invalidMetadata, pos⟩
  else if MAX_META_KEY_LEN < key.length then .error ⟨.invalidMetadata, pos⟩
  else if key.all (fun b => isAsciiLowercase b || isAsciiDigit b || b = '_') then .ok ()
  else .error ⟨.invalidMetadata, pos⟩

/-- validate::validate_unit. -/
def validateUnit (unit : List Char) (pos : Nat) : Except ParseError Unit :=
  if unit = [] then .error ⟨.invalidField, pos⟩
  else if MAX_UNIT_LEN < unit.length then .error ⟨.invalidField, pos⟩
  else .ok ()

/-- The optional-fraction tail of validate::validate_number: after the
integer part the scanner accepts end of input, or a dot followed by one
or more digits reaching end of input. -/
def numFracCheck (rest : List Char) (pos : Nat) : Except ParseError Unit :=
  match rest with
  | [] => .ok ()
  | '.' :: f =>
    match f with
    | [] => .error ⟨.invalidVariable, pos⟩
    | d :: rest2 =>
      if isAsciiDigit d then
        if rest2.dropWhile isAsciiDigit = [] then .ok ()
        else .error ⟨.invalidVariable, pos⟩
      else .error ⟨.invalidVariable, pos⟩
  | _ :: _ => .error ⟨.invalidVariable, pos⟩

/-- validate::validate_number: optional minus sign, then the integer part
(a single 0, or a 1-9 digit followed by any digits), then the optional
fraction, and nothing else. -/
def validateNumber (s : List Char) (pos : Nat) : Except ParseError Unit :=
  let t := match s with
    | '-' :: r => r
    | _ => s
  match t with
  | [] => .error ⟨.invalidVariable, pos⟩
  | c :: r =>
    if c = '0' then numFracCheck r pos
    else if isOneNine c then numFracCheck (r.dropWhile isAsciiDigit) pos
    else .error ⟨.invalidVariable, pos⟩

-- Escape-aware scanning helpers shared by parse/body.rs and parse/variable.rs.

/-- Scan forward until one of the stop bytes, skipping backslash escape
pairs; returns the scanned prefix and the rest starting at the stop byte
(parse::body::scan_until_any and scan_until_mod, parse::variable::scan_value
and scan_until_any, expressed as a prefix-rest split). -/
def scanStop (stops : List Char) : List Char → List Char × List Char
  | [] => ([], [])
  | [c] => if c ∈ stops then ([], [c]) else ([c], [])
  | c :: b :: r =>
    if c = '\\' then
      let p := scanStop stops r
      (c :: b :: p.1, p.2)
    else if c ∈ stops then ([], c :: b :: r)
    else
      let p := scanStop stops (b :: r)
      (c :: p.1, p.2)

/-- Find an unescaped occurrence of a byte; returns the part before it and
the part after it (parse::body::find_unescaped_byte together with the
slicing its callers perform). -/
def findUnescaped (t : Char) : List Char → Option (List Char × List Char)
  | [] => none
  | [c] => if c = t then some ([], []) else none
  | c :: b :: r =>
    if c = '\\' then (findUnescaped t r).map (fun p => (c :: b :: p.1, p.2))
    else if c = t then some ([], b :: r)
    else (findUnescaped t (b :: r)).map (fun p => (c :: p.1, p.2))

/-- Find the closing bracket matching an already-consumed opening bracket,
tracking nesting depth and skipping escape pairs
(parse::body::find_closing_bracket, as a between-rest split). -/
def findClosingBracket (depth : Nat) (acc : List Char) : List Char → Option (List Char × List Char)
  | [] => none
  | [c] =>
    if c = '[' then findClosingBracket (depth + 1) (c :: acc) []
    else if c = ']' then
      if depth = 1 then some (acc.reverse, [])
      else findClosingBracket (depth - 1) (c :: acc) []
    else findClosingBracket depth (c :: acc) []
  | c :: b :: r =>
    if c = '\\' then findClosingBracket depth (b :: c :: acc) r
    else if c = '[' then findClosingBracket (depth + 1) (c :: acc) (b :: r)
    else if c = ']' then
      if depth = 1 then some (acc.reverse, b :: r)
      else findClosingBracket (depth - 1) (c :: acc) (b :: r)
    else findClosingBracket depth (c :: acc) (b :: r)

/-- Find the closing brace of a metadata block, skipping escape pairs
(parse::variable::find_closing_brace, as a between-rest split). -/
def findClosingBrace : List Char → Option (List Char × List Char)
  | [] => none
  | [c] => if c = '}' then some ([], []) else none
  | c :: b :: r =>
    if c = '\\' then (findClosingBrace r).map (fun p => (c :: b :: p.1, p.2))
    else if c = '}' then some ([], b :: r)
    else (findClosingBrace (b :: r)).map (fun p => (c :: p.1, p.2))

-- Metadata parsing from tagotip-codec parse/variable.rs.

/-- parse::variable::parse_meta_pair: split a single pair at the first
unescaped equals sign and validate the key. -/
def parseMetaPair (s : List Char) (pos : Nat) : Except ParseError MetaPair :=
  match findUnescaped '=' s with
  | none => .error ⟨.invalidMetadata, pos⟩
  | some p => do
    validateMetaKey p.1 pos
    .ok ⟨p.1, p.2⟩

/-- One piece of the comma-split loop of parse::variable::parse_metadata:
empty pieces are skipped, non-empty pieces are parsed and pushed subject
to the 32-pair block capacity. -/
def handleMetaPiece (basePos start : Nat) (block : List MetaPair) (piece : List Char) :
    Except ParseError (List MetaPair) :=
  if piece = [] then .ok block
  else do
    let pair ← parseMetaPair piece (basePos + start)
    if MAX_META_PAIRS ≤ block.length then throw ⟨.tooManyItems, basePos + start⟩
    else pure (block ++ [pair])

/-- The comma-split loop of parse::variable::parse_metadata. -/
def parseMetadataAux (basePos : Nat) (block : List MetaPair) (start idx : Nat)
    (cur : List Char) : List Char → Except ParseError (List MetaPair)
  | [] => handleMetaPiece basePos start block cur.reverse
  | [c] =>
    if c = ',' then do
      let block2 ← handleMetaPiece basePos start block cur.reverse
      parseMetadataAux basePos block2 (idx + 1) (idx + 1) [] []
    else parseMetadataAux basePos block start (idx + 1) (c :: cur) []
  | c :: b :: r =>
    if c = ',' then do
      let block2 ← handleMetaPiece basePos start block cur.reverse
      parseMetadataAux basePos block2 (idx + 1) (idx + 1) [] (b :: r)
    else if c = '\\' then parseMetadataAux basePos block start (idx + 2) (b :: c :: cur) r
    else parseMetadataAux basePos block start (idx + 1) (c :: cur) (b :: r)

/-- parse::variable::parse_metadata. -/
def parseMetadata (s : List Char) (basePos : Nat) : Except ParseError (List MetaPair) :=
  if s = [] then .error ⟨.invalidMetadata, basePos⟩
  else do
    let block ← parseMetadataAux basePos [] 0 0 [] s
    if block = [] then .error ⟨.invalidMetadata, basePos⟩
    else .ok block

/-- The push loop of parse::body::add_to_pool, with the 512-entry pool cap. -/
def addToPoolAux (pos : Nat) (pool : List MetaPair) : List MetaPair → Except ParseError (List MetaPair)
  | [] => .ok pool
  | p :: rest =>
    if MAX_TOTAL_META ≤ pool.length then .error ⟨.tooManyItems, pos⟩
    else addToPoolAux pos (pool ++ [p]) rest

/-- parse::body::add_to_pool: append pairs to the shared pool and return
the covered range. -/
def addToPool (pool : List MetaPair) (pairs : List MetaPair) (pos : Nat) :
    Except ParseError (MetaRange × List MetaPair) := do
  let pool2 ← addToPoolAux pos pool pairs
  .ok (⟨pool.length, pairs.length⟩, pool2)

-- Variable parsing from tagotip-codec parse/variable.rs.

/-- parse::variable::find_operator: position, byte length and kind of the
first operator, with escape pairs skipped. -/
def findOperator (basePos idx : Nat) : List Char → Except ParseError (Nat × Nat × Operator)
  | [] => .error ⟨.invalidVariable, basePos⟩
  | [c] =>
    if c = '=' then .ok (idx, 1, .string)
    else .error ⟨.invalidVariable, basePos⟩
  | c :: b :: r =>
    if c = '\\' then findOperator basePos (idx + 2) r
    else if b = '=' then
      if c = ':' then .ok (idx, 2, .number)
      else if c = '?' then .ok (idx, 2, .boolean)
      else if c = '@' then .ok (idx, 2, .location)
      else if c = '=' then .ok (idx, 1, .string)
      else findOperator basePos (idx + 1) (b :: r)
    else if c = '=' then .ok (idx, 1, .string)
    else findOperator basePos (idx + 1) (b :: r)

/-- Plain character split (the std splitn used by parse::variable::parse_location;
not escape-aware). -/
def plainSplit (sep : Char) : List Char → List (List Char)
  | [] => [[]]
  | c :: r =>
    match plainSplit sep r with
    | [] => [[]]
    | p :: ps => if c = sep then [] :: p :: ps else (c :: p) :: ps

/-- parse::variable::parse_location. -/
def parseLocation (s : List Char) (pos : Nat) : Except ParseError Value :=
  match plainSplit ',' s with
  | [_] => .error ⟨.invalidVariable, pos⟩
  | [lat, lng] =>
    if lat = [] ∨ lng = [] then .error ⟨.invalidVariable, pos⟩
    else do
      validateNumber lat pos
      validateNumber lng pos
      .ok (.location lat lng none)
  | [lat, lng, alt] =>
    if lat = [] ∨ lng = [] then .error ⟨.invalidVariable, pos⟩
    else do
      validateNumber lat pos
      validateNumber lng pos
      if alt = [] then throw ⟨.invalidVariable, pos⟩
      else do
        validateNumber alt pos
        pure (.location lat lng (some alt))
  | _ => .error ⟨.invalidVariable, pos⟩

/-- parse::variable::parse_value. -/
def parseValue (s : List Char) (op : Operator) (pos : Nat) : Except ParseError Value :=
  match op with
  | .number =>
    if s = [] then .error ⟨.invalidVariable, pos⟩
    else do
      validateNumber s pos
      .ok (.number s)
  | .string =>
    if s = [] then .error ⟨.invalidVariable, pos⟩
    else .ok (.string s)
  | .boolean =>
    if s = "true".toList then .ok (.boolean true)
    else if s = "false".toList then .ok (.boolean false)
    else .error ⟨.invalidVariable, pos⟩
  | .location => parseLocation s pos

/-- parse::variable::validate_timestamp. -/
def validateTimestampVar (s : List Char) (pos : Nat) : Except ParseError Unit :=
  if s = [] then .error ⟨.invalidVariable, pos⟩
  else if s.all isAsciiDigit then .ok ()
  else .error ⟨.invalidVariable, pos⟩

/-- parse::body::validate_digits (body-level timestamps; modifier error kind). -/
def validateDigitsMod (s : List Char) (pos : Nat) : Except ParseError Unit :=
  if s = [] then .error ⟨.invalidModifier, pos⟩
  else if s.all isAsciiDigit then .ok ()
  else .error ⟨.invalidModifier, pos⟩

/-- parse::variable::ParsedVariable. -/
structure ParsedVariable where
  «variable» : Variable
  metaPairs : Option (List MetaPair)
deriving DecidableEq, Repr

/-- parse::variable::parse_variable. -/
def parseVariable (s : List Char) (basePos : Nat) : Except ParseError ParsedVariable := do
  let (opPos, opLen, op) ← findOperator basePos 0 s
  let name := s.take opPos
  if name = [] then throw ⟨.invalidVariable, basePos⟩
  validateVarname name basePos
  let pos0 := opPos + opLen
  let pv := scanStop ['#', '@', '^', '{'] (s.drop pos0)
  let value ← parseValue pv.1 op (basePos + pos0)
  let pos1 := pos0 + pv.1.length
  let ur ←
    match pv.2 with
    | '#' :: r =>
      if op = Operator.location then throw ⟨.invalidVariable, basePos + pos1⟩
      else
        let pu := scanStop ['@', '^', '{'] r
        do
          validateUnit pu.1 (basePos + pos1 + 1)
          pure (some pu.1, pu.2, pos1 + 1 + pu.1.length)
    | rest => pure ((none : Option (List Char)), rest, pos1)
  let tr ←
    match ur.2.1 with
    | '@' :: r =>
      let pt := scanStop ['^', '{'] r
      do
        validateTimestampVar pt.1 (basePos + ur.2.2 + 1)
        pure (some pt.1, pt.2, ur.2.2 + 1 + pt.1.length)
    | rest => pure ((none : Option (List Char)), rest, ur.2.2)
  let gr ←
    match tr.2.1 with
    | '^' :: r =>
      let pg := scanStop ['{'] r
      do
        validateGroup pg.1 (basePos + tr.2.2 + 1)
        pure (some pg.1, pg.2, tr.2.2 + 1 + pg.1.length)
    | rest => pure ((none : Option (List Char)), rest, tr.2.2)
  let metaPairs ←
    match gr.2.1 with
    | '{' :: r =>
      match findUnescaped '}' r with
      | none => throw ⟨.invalidMetadata, basePos + gr.2.2 + 1⟩
      | some pm => do
        let pairs ← parseMetadata pm.1 (basePos + gr.2.2 + 1)
        pure (some pairs)
    | _ => pure (none : Option (List MetaPair))
  pure ⟨⟨name, op, value, ur.1, tr.1, gr.1, none⟩, metaPairs⟩

-- Body parsing from tagotip-codec parse/body.rs.

/-- parse::body::parse_hex_passthrough. -/
def parseHexPassthrough (data : List Char) (pos : Nat) : Except ParseError PushBody :=
  if data = [] then .error ⟨.invalidPassthrough, pos⟩
  else if data.length % 2 ≠ 0 then .error ⟨.invalidPassthrough, pos⟩
  else if data.all isAsciiHexdigit then .ok (.passthrough ⟨.hex, data⟩)
  else .error ⟨.invalidPassthrough, pos⟩

/-- parse::body::parse_base64_passthrough. -/
def parseBase64Passthrough (data : List Char) (pos : Nat) : Except ParseError PushBody :=
  if data = [] then .error ⟨.invalidPassthrough, pos⟩
  else if data.all (fun b => isAsciiAlphanumeric b || b = '+' || b = '/' || b = '=') then
    .ok (.passthrough ⟨.base64, data⟩)
  else .error ⟨.invalidPassthrough, pos⟩

/-- Scanning consumes no characters beyond the input. -/
theorem scanStop_rest_length (stops : List Char) :
    ∀ l : List Char, (scanStop stops l).2.length ≤ l.length
  | [] => by simp [scanStop]
  | [c] => by by_cases h : c ∈ stops <;> simp [scanStop, h]
  | c :: b :: r => by
    have ih1 := scanStop_rest_length stops r
    have ih2 := scanStop_rest_length stops (b :: r)
    by_cases h1 : c = '\\'
    · simp only [scanStop, if_pos h1]
      simp only [List.length_cons] at ih1 ⊢
      omega
    · by_cases h2 : c ∈ stops
      · simp [scanStop, h1, h2]
      · simp only [scanStop, if_neg h1, if_neg h2]
        simp only [List.length_cons] at ih2 ⊢
        omega

/-- A successful unescaped-byte search returns a suffix of the input. -/
theorem findUnescaped_rest_length (t : Char) :
    ∀ (l : List Char) (p : List Char × List Char),
      findUnescaped t l = some p → p.2.length ≤ l.length
  | [], p => by simp [findUnescaped]
  | [c], p => by
    by_cases h : c = t <;> simp [findUnescaped, h]
    rintro rfl
    simp
  | c :: b :: r, p => by
    intro h
    by_cases h1 : c = '\\'
    · rw [findUnescaped, if_pos h1] at h
      rcases hq : findUnescaped t r with _ | q
      · rw [hq] at h; simp at h
      · rw [hq] at h
        simp only [Option.map_some'] at h
        have ihq := findUnescaped_rest_length t r q hq
        cases h
        simp only [List.length_cons] at ihq ⊢
        omega
    · by_cases h2 : c = t
      · rw [findUnescaped, if_neg h1, if_pos h2] at h
        cases h
        simp
      · rw [findUnescaped, if_neg h1, if_neg h2] at h
        rcases hq : findUnescaped t (b :: r) with _ | q
        · rw [hq] at h; simp at h
        · rw [hq] at h
          simp only [Option.map_some'] at h
          have ihq := findUnescaped_rest_length t (b :: r) q hq
          cases h
          simp only [List.length_cons] at ihq ⊢
          omega

/-- Phase 3 of the parse::body::parse_body_modifiers loop (all three
modifiers consumed): any further byte is a modifier error. -/
def parseBodyModifiersP3 (basePos pos : Nat) (group timestamp : Option (List Char))
    (metaRange : Option MetaRange) (pool : List MetaPair) :
    List Char →
      Except ParseError (Option (List Char) × Option (List Char) × Option MetaRange × List MetaPair)
  | [] => .ok (group, timestamp, metaRange, pool)
  | _ :: _ => .error ⟨.invalidModifier, basePos + pos⟩

/-- Phase 2 of the parse::body::parse_body_modifiers loop (timestamp
consumed): only an opening brace may follow; a caret or at sign is a
modifier error. -/
def parseBodyModifiersP2 (basePos pos : Nat) (group timestamp : Option (List Char))
    (metaRange : Option MetaRange) (pool : List MetaPair) :
    List Char →
      Except ParseError (Option (List Char) × Option (List Char) × Option MetaRange × List MetaPair)
  | [] => .ok (group, timestamp, metaRange, pool)
  | c :: r =>
    if c = '^' then .error ⟨.invalidModifier, basePos + pos⟩
    else if c = '@' then .error ⟨.invalidModifier, basePos + pos⟩
    else if c = '{' then
      match findUnescaped '}' r with
      | none => .error ⟨.invalidMetadata, basePos + pos + 1⟩
      | some p => do
        let pairs ← parseMetadata p.1 (basePos + pos + 1)
        let rp ← addToPool pool pairs (basePos + pos + 1)
        parseBodyModifiersP3 basePos (pos + 1 + p.1.length + 1) group timestamp (some rp.1) rp.2 p.2
    else .error ⟨.invalidModifier, basePos + pos⟩

/-- Phase 1 of the parse::body::parse_body_modifiers loop (group
consumed): an at sign or an opening brace may follow; a caret is a
modifier error. -/
def parseBodyModifiersP1 (basePos pos : Nat) (group timestamp : Option (List Char))
    (metaRange : Option MetaRange) (pool : List MetaPair) :
    List Char →
      Except ParseError (Option (List Char) × Option (List Char) × Option MetaRange × List MetaPair)
  | [] => .ok (group, timestamp, metaRange, pool)
  | c :: r =>
    if c = '^' then .error ⟨.invalidModifier, basePos + pos⟩
    else if c = '@' then
      let p := scanStop ['{'] r
      do
        validateDigitsMod p.1 (basePos + pos + 1)
        parseBodyModifiersP2 basePos (pos + 1 + p.1.length) group (some p.1) metaRange pool p.2
    else if c = '{' then
      match findUnescaped '}' r with
      | none => .error ⟨.invalidMetadata, basePos + pos + 1⟩
      | some p => do
        let pairs ← parseMetadata p.1 (basePos + pos + 1)
        let rp ← addToPool pool pairs (basePos + pos + 1)
        parseBodyModifiersP3 basePos (pos + 1 + p.1.length + 1) group timestamp (some rp.1) rp.2 p.2
    else .error ⟨.invalidModifier, basePos + pos⟩

/-- Phase 0 of the parse::body::parse_body_modifiers loop: its state
machine is unrolled here into one definition per phase, since each
iteration of the source loop strictly increases the phase.  In the code
as written phase 0 accepts a caret (group), phase 1 an at sign
(timestamp) and phase 2 an opening brace (metadata); a marker whose
phase has already been passed is a modifier error. -/
def parseBodyModifiersP0 (basePos : Nat) (pool : List MetaPair) :
    List Char →
      Except ParseError (Option (List Char) × Option (List Char) × Option MetaRange × List MetaPair)
  | [] => .ok (none, none, none, pool)
  | c :: r =>
    if c = '^' then
      let p := scanStop ['@', '{'] r
      do
        validateGroup p.1 (basePos + 1)
        parseBodyModifiersP1 basePos (1 + p.1.length) (some p.1) none none pool p.2
    else if c = '@' then
      let p := scanStop ['{'] r
      do
        validateDigitsMod p.1 (basePos + 1)
        parseBodyModifiersP2 basePos (1 + p.1.length) none (some p.1) none pool p.2
    else if c = '{' then
      match findUnescaped '}' r with
      | none => .error ⟨.invalidMetadata, basePos + 1⟩
      | some p => do
        let pairs ← parseMetadata p.1 (basePos + 1)
        let rp ← addToPool pool pairs (basePos + 1)
        parseBodyModifiersP3 basePos (1 + p.1.length + 1) none none (some rp.1) rp.2 p.2
    else .error ⟨.invalidModifier, basePos⟩

/-- parse::body::parse_body_modifiers. -/
def parseBodyModifiers (s : List Char) (basePos : Nat) (pool : List MetaPair) :
    Except ParseError (Option (List Char) × Option (List Char) × Option MetaRange × List MetaPair) :=
  if s = [] then .ok (none, none, none, pool)
  else parseBodyModifiersP0 basePos pool s

/-- One piece of the semicolon-split loop of parse::body::parse_variable_list:
empty pieces are skipped; a non-empty piece is parsed as a variable, its
metadata appended to the shared pool, and the variable pushed subject to the
100-variable capacity. -/
def handlePushItem (basePos start : Nat) (vars : List Variable) (pool : List MetaPair)
    (item : List Char) : Except ParseError (List Variable × List MetaPair) :=
  if item = [] then .ok (vars, pool)
  else do
    let parsed ← parseVariable item (basePos + start)
    let vp ←
      match parsed.metaPairs with
      | some pairs => do
        let rp ← addToPool pool pairs (basePos + start)
        pure ({ parsed.«variable» with meta := some rp.1 }, rp.2)
      | none => pure (parsed.«variable», pool)
    if MAX_VARIABLES ≤ vars.length then throw ⟨.tooManyItems, basePos + start⟩
    else pure (vars ++ [vp.1], vp.2)

/-- The semicolon-split loop of parse::body::parse_variable_list. -/
def parseVariableListAux (basePos : Nat) (vars : List Variable) (pool : List MetaPair)
    (start idx : Nat) (cur : List Char) :
    List Char → Except ParseError (List Variable × List MetaPair)
  | [] => handlePushItem basePos start vars pool cur.reverse
  | [c] =>
    if c = ';' then do
      let vp ← handlePushItem basePos start vars pool cur.reverse
      parseVariableListAux basePos vp.1 vp.2 (idx + 1) (idx + 1) [] []
    else parseVariableListAux basePos vars pool start (idx + 1) (c :: cur) []
  | c :: b :: r =>
    if c = ';' then do
      let vp ← handlePushItem basePos start vars pool cur.reverse
      parseVariableListAux basePos vp.1 vp.2 (idx + 1) (idx + 1) [] (b :: r)
    else if c = '\\' then parseVariableListAux basePos vars pool start (idx + 2) (b :: c :: cur) r
    else parseVariableListAux basePos vars pool start (idx + 1) (c :: cur) (b :: r)

/-- parse::body::parse_variable_list. -/
def parseVariableList (s : List Char) (basePos : Nat) (pool : List MetaPair) :
    Except ParseError (List Variable × List MetaPair) :=
  parseVariableListAux basePos [] pool 0 0 [] s

/-- parse::body::parse_push_body. -/
def parsePushBody (body : List Char) (basePos : Nat) : Except ParseError PushBody :=
  match body with
  | '>' :: 'x' :: rest => parseHexPassthrough rest (basePos + 2)
  | '>' :: 'b' :: rest => parseBase64Passthrough rest (basePos + 2)
  | _ =>
    match findUnescaped '[' body with
    | none => .error ⟨.invalidVariableBlock, basePos⟩
    | some pb =>
      let bracketPos := pb.1.length
      match findClosingBracket 1 [] pb.2 with
      | none => .error ⟨.invalidVariableBlock, basePos + bracketPos⟩
      | some pc =>
        if pc.1 = [] then .error ⟨.invalidVariableBlock, basePos + bracketPos⟩
        else do
          let mods ← parseBodyModifiers pb.1 basePos []
          let vp ← parseVariableList pc.1 (basePos + bracketPos + 1) mods.2.2.2
          if vp.1 = [] then throw ⟨.invalidVariableBlock, basePos + bracketPos⟩
          else pure (PushBody.structured ⟨mods.1, mods.2.1, mods.2.2.1, vp.1, vp.2⟩)

/-- One piece of the semicolon-split loop of parse::body::parse_pull_body. -/
def handlePullItem (basePos start : Nat) (vars : List (List Char)) (name : List Char) :
    Except ParseError (List (List Char)) :=
  if name = [] then .ok vars
  else do
    validateVarname name (basePos + 1 + start)
    if MAX_VARIABLES ≤ vars.length then throw ⟨.tooManyItems, basePos + 1 + start⟩
    else pure (vars ++ [name])

/-- The semicolon-split loop of parse::body::parse_pull_body. -/
def parsePullBodyAux (basePos : Nat) (vars : List (List Char)) (start idx : Nat)
    (cur : List Char) : List Char → Except ParseError (List (List Char))
  | [] => handlePullItem basePos start vars cur.reverse
  | [c] =>
    if c = ';' then do
      let vs ← handlePullItem basePos start vars cur.reverse
      parsePullBodyAux basePos vs (idx + 1) (idx + 1) [] []
    else parsePullBodyAux basePos vars start (idx + 1) (c :: cur) []
  | c :: b :: r =>
    if c = ';' then do
      let vs ← handlePullItem basePos start vars cur.reverse
      parsePullBodyAux basePos vs (idx + 1) (idx + 1) [] (b :: r)
    else if c = '\\' then parsePullBodyAux basePos vars start (idx + 2) (b :: c :: cur) r
    else parsePullBodyAux basePos vars start (idx + 1) (c :: cur) (b :: r)

/-- parse::body::parse_pull_body. -/
def parsePullBody (body : List Char) (basePos : Nat) : Except ParseError PullBody :=
  if body.head? = some '[' ∧ body.getLast? = some ']' then
    let inner := (body.drop 1).dropLast
    if inner = [] then .error ⟨.invalidVariableBlock, basePos⟩
    else do
      let vars ← parsePullBodyAux basePos [] 0 0 [] inner
      if vars = [] then throw ⟨.invalidVariableBlock, basePos⟩
      else pure ⟨vars⟩
  else .error ⟨.missingBody, basePos⟩

-- Frame-level parsing from tagotip-codec parse/frame.rs and parse/mod.rs.

/-- parse::frame::split_fields: split on unescaped pipes into at most
eight fields; once seven fields are produced the remaining unsplit
suffix is placed verbatim in the final slot. -/
def splitFieldsAux (fields : List (List Char)) (cur : List Char) : List Char → List (List Char)
  | [] => fields ++ [cur.reverse]
  | [c] =>
    if c = '|' then
      let fs := fields ++ [cur.reverse]
      if fs.length = MAX_UPLINK_FIELDS - 1 then fs ++ [[]]
      else splitFieldsAux fs [] []
    else splitFieldsAux fields (c :: cur) []
  | c :: b :: r =>
    if c = '|' then
      let fs := fields ++ [cur.reverse]
      if fs.length = MAX_UPLINK_FIELDS - 1 then fs ++ [b :: r]
      else splitFieldsAux fs [] (b :: r)
    else if c = '\\' then splitFieldsAux fields (b :: c :: cur) r
    else splitFieldsAux fields (c :: cur) (b :: r)

/-- parse::frame::split_fields. -/
def splitFields (input : List Char) : List (List Char) := splitFieldsAux [] [] input

/-- parse::frame::parse_method. -/
def parseMethod (s : List Char) : Except ParseError Method :=
  if s = "PUSH".toList then .ok .push
  else if s = "PULL".toList then .ok .pull
  else if s = "PING".toList then .ok .ping
  else .error ⟨.invalidMethod, 0⟩

/-- parse::frame::parse_u32 (identical to parse::ack::parse_u32_str):
checked decimal u32 parsing. -/
def parseU32Aux (r : Nat) : List Char → Option Nat
  | [] => some r
  | c :: rest =>
    if isAsciiDigit c then
      let m := r * 10
      if 4294967295 < m then none
      else
        let a := m + (c.toNat - 48)
        if 4294967295 < a then none
        else parseU32Aux a rest
    else none

/-- parse::frame::parse_u32 entry point (empty input is rejected). -/
def parseU32 (s : List Char) : Option Nat :=
  if s = [] then none else parseU32Aux 0 s

/-- parse::frame::parse_seq. -/
def parseSeq (s : List Char) (pos : Nat) : Except ParseError Nat :=
  match s with
  | '!' :: num =>
    if num = [] then .error ⟨.invalidSeq, pos⟩
    else if 1 < num.length ∧ num.head? = some '0' then .error ⟨.invalidSeq, pos⟩
    else
      match parseU32 num with
      | some n => .ok n
      | none => .error ⟨.invalidSeq, pos⟩
  | _ => .error ⟨.invalidSeq, pos⟩

/-- parse::frame::validate_auth. -/
def validateAuth (s : List Char) (pos : Nat) : Except ParseError Unit :=
  if s.length ≠ AUTH_TOKEN_LEN then .error ⟨.invalidAuth, pos⟩
  else
    match s with
    | 'a' :: 't' :: rest =>
      if rest.all isAsciiHexdigit then .ok () else .error ⟨.invalidAuth, pos⟩
    | _ => .error ⟨.invalidAuth, pos⟩

/-- parse::frame::extract_serial. -/
def extractSerial (s : List Char) (pos : Nat) : Except ParseError (List Char) := do
  validateSerial s pos
  .ok s

/-- parse::mod::parse_uplink after the NUL, size and newline preconditions
(field splitting and positional interpretation). -/
def uplinkCore (input : List Char) : Except ParseError UplinkFrame :=
  let fields := splitFields input
  match fields with
  | [] => .error ⟨.emptyFrame, 0⟩
  | f0 :: rest =>
    if f0 = [] then .error ⟨.emptyFrame, 0⟩
    else do
      let method ← parseMethod f0
      let sa ←
        match rest.head? with
        | some f1 =>
          if f1.head? = some '!' then do
            let n ← parseSeq f1 (f0.length + 1)
            pure (some n, 2)
          else pure ((none : Option Nat), 1)
        | none => pure ((none : Option Nat), 1)
      let authPos := ((fields.take sa.2).map (fun f => f.length + 1)).sum
      match fields[sa.2]? with
      | none => throw ⟨.invalidAuth, authPos⟩
      | some auth => do
        validateAuth auth authPos
        let serialIdx := sa.2 + 1
        let serialPos := authPos + auth.length + 1
        match fields[serialIdx]? with
        | none => throw ⟨.invalidSerial, serialPos⟩
        | some serialField => do
          let serial ← extractSerial serialField serialPos
          let bodyIdx := serialIdx + 1
          let bodyPos := serialPos + serial.length + 1
          match method with
          | .push =>
            match fields[bodyIdx]? with
            | none => throw ⟨.missingBody, bodyPos⟩
            | some bodyStr => do
              let pbody ← parsePushBody bodyStr bodyPos
              pure ⟨method, sa.1, auth, serial, some pbody, none⟩
          | .pull =>
            match fields[bodyIdx]? with
            | none => throw ⟨.missingBody, bodyPos⟩
            | some bodyStr => do
              let plbody ← parsePullBody bodyStr bodyPos
              pure ⟨method, sa.1, auth, serial, none, some plbody⟩
          | .ping => pure ⟨method, sa.1, auth, serial, none, none⟩

/-- The single trailing-newline strip (str::strip_suffix applied once). -/
def stripNewline (l : List Char) : List Char :=
  if l.getLast? = some '\n' then l.dropLast else l

/-- parse::mod::parse_uplink. -/
def parseUplink (input : List Char) : Except ParseError UplinkFrame :=
  if input.contains (Char.ofNat 0) then .error ⟨.nulByte, 0⟩
  else if MAX_FRAME_SIZE < input.length then .error ⟨.frameTooLarge, 0⟩
  else uplinkCore (stripNewline input)

-- ACK parsing from tagotip-codec parse/ack.rs.

/-- parse::ack::parse_ack_status. -/
def parseAckStatus (s : List Char) : Except ParseError AckStatus :=
  if s = "OK".toList then .ok .ok
  else if s = "PONG".toList then .ok .pong
  else if s = "CMD".toList then .ok .cmd
  else if s = "ERR".toList then .ok .err
  else .error ⟨.invalidAck, 0⟩

/-- The eleven-code table of parse::ack::parse_ack_detail. -/
def ackErrorCode (s : List Char) : ErrorCode :=
  if s = "invalid_token".toList then .invalidToken
  else if s = "invalid_method".toList then .invalidMethod
  else if s = "invalid_payload".toList then .invalidPayload
  else if s = "invalid_seq".toList then .invalidSeq
  else if s = "device_not_found".toList then .deviceNotFound
  else if s = "variable_not_found".toList then .variableNotFound
  else if s = "rate_limited".toList then .rateLimited
  else if s = "auth_failed".toList then .authFailed
  else if s = "unsupported_version".toList then .unsupportedVersion
  else if s = "payload_too_large".toList then .payloadTooLarge
  else if s = "server_error".toList then .serverError
  else .unknown

/-- parse::ack::parse_ack_detail. -/
def parseAckDetail (s : List Char) (status : AckStatus) : Except ParseError AckDetail :=
  match status with
  | .ok =>
    if s.head? = some '[' then .ok (.«variables» s)
    else
      match parseU32 s with
      | some n => .ok (.count n)
      | none => .ok (.raw s)
  | .pong => .ok (.raw s)
  | .cmd => .ok (.command s)
  | .err => .ok (.error (ackErrorCode s) s)

/-- parse::ack::parse_ack after field splitting: positional interpretation
of the fields list. -/
def ackFromFields : List (List Char) → Except ParseError AckFrame
  | [] => .error ⟨.invalidAck, 0⟩
  | f0 :: rest =>
    if f0 ≠ "ACK".toList then .error ⟨.invalidAck, 0⟩
    else
      match rest with
      | [] => .error ⟨.invalidAck, 0⟩
      | f1 :: rest2 =>
        if f1.head? = some '!' then do
          let n ← parseSeq f1 4
          match rest2 with
          | [] => throw ⟨.invalidAck, 0⟩
          | f2 :: rest3 => do
            let status ← parseAckStatus f2
            match rest3 with
            | [] => pure ⟨some n, status, none⟩
            | f3 :: _ => do
              let d ← parseAckDetail f3 status
              pure ⟨some n, status, some d⟩
        else do
          let status ← parseAckStatus f1
          match rest2 with
          | [] => pure ⟨none, status, none⟩
          | f2 :: _ => do
            let d ← parseAckDetail f2 status
            pure ⟨none, status, some d⟩

/-- parse::ack::parse_ack (the body of the function after splitting). -/
def parseAckCore (input : List Char) : Except ParseError AckFrame :=
  ackFromFields (splitFields input)

/-- parse::mod::parse_ack: strips one trailing newline, then parses; no
NUL or size precondition is applied on this path. -/
def parseAck (input : List Char) : Except ParseError AckFrame :=
  parseAckCore (stripNewline input)

-- Builders from tagotip-codec fmt.rs and build/frame.rs.  The cursor-based
-- FrameWriter is modelled as pure list concatenation: the byte sequence the
-- writer produces when the caller buffer is large enough.

/-- The divmod digit loop of fmt::format_u32; the first argument models
the remaining space in the ten-byte scratch buffer (ten bytes suffice
for any u32 value). -/
def u32DigitsAux : Nat → Nat → List Char → List Char
  | 0, _, acc => acc
  | fuel + 1, v, acc =>
    if v = 0 then acc
    else u32DigitsAux fuel (v / 10) (Char.ofNat (48 + v % 10) :: acc)

/-- fmt::format_u32: canonical decimal digits of a u32 value. -/
def u32Digits (v : Nat) : List Char :=
  if v = 0 then ['0'] else u32DigitsAux 10 v []

/-- Join pieces with a separator byte, as the writers do when emitting
variable lists, pull bodies and metadata blocks. -/
def joinSep (sep : Char) : List (List Char) → List Char
  | [] => []
  | [x] => x
  | x :: y :: rest => x ++ sep :: joinSep sep (y :: rest)

/-- One pair of build::frame::FrameWriter::write_metadata_pairs. -/
def metaPairChars (p : MetaPair) : List Char := p.key ++ '=' :: p.value

/-- build::frame::FrameWriter::write_metadata_pairs. -/
def buildMetadataPairs (pairs : List MetaPair) : List Char :=
  '{' :: joinSep ',' (pairs.map metaPairChars) ++ ['}']

/-- The pool slice selected by a MetaRange (meta_pool[start..start+len]). -/
def poolSlice (pool : List MetaPair) (r : MetaRange) : List MetaPair :=
  (pool.drop r.start).take r.len

/-- build::frame::FrameWriter::write_value. -/
def buildValue (op : Operator) (v : Value) : List Char :=
  match op with
  | .number =>
    ":=".toList ++ (match v with | .number n => n | _ => [])
  | .string =>
    '=' :: (match v with | .string s => s | _ => [])
  | .boolean =>
    "?=".toList ++ (match v with
      | .boolean b => if b then "true".toList else "false".toList
      | _ => [])
  | .location =>
    "@=".toList ++ (match v with
      | .location lat lng alt =>
        lat ++ ',' :: lng ++ (match alt with | some a => ',' :: a | none => [])
      | _ => [])

/-- build::frame::FrameWriter::write_variable. -/
def buildVariable (v : Variable) (pool : List MetaPair) : List Char :=
  v.name ++ buildValue v.operator v.value
    ++ (match v.unit with | some u => '#' :: u | none => [])
    ++ (match v.timestamp with | some t => '@' :: t | none => [])
    ++ (match v.group with | some g => '^' :: g | none => [])
    ++ (match v.meta with | some r => buildMetadataPairs (poolSlice pool r) | none => [])

/-- build::frame::FrameWriter::write_body_modifiers: the timestamp is
written first, then the group, then the body metadata block. -/
def buildBodyModifiers (group timestamp : Option (List Char)) (bodyMeta : Option MetaRange)
    (pool : List MetaPair) : List Char :=
  (match timestamp with | some t => '@' :: t | none => [])
    ++ (match group with | some g => '^' :: g | none => [])
    ++ (match bodyMeta with | some r => buildMetadataPairs (poolSlice pool r) | none => [])

/-- build::frame::write_push_body. -/
def buildPushBody (b : PushBody) : List Char :=
  match b with
  | .passthrough pt =>
    (match pt.encoding with
      | .hex => ">x".toList
      | .base64 => ">b".toList) ++ pt.data
  | .structured sb =>
    buildBodyModifiers sb.group sb.timestamp sb.bodyMeta sb.metaPool
      ++ '[' :: joinSep ';' (sb.«variables».map (fun v => buildVariable v sb.metaPool)) ++ [']']

/-- build::frame::write_pull_body. -/
def buildPullBody (b : PullBody) : List Char :=
  '[' :: joinSep ';' b.«variables» ++ [']']

/-- The method token emitted by build::frame::build_uplink. -/
def methodChars : Method → List Char
  | .push => "PUSH".toList
  | .pull => "PULL".toList
  | .ping => "PING".toList

/-- build::frame::build_uplink. -/
def buildUplink (f : UplinkFrame) : List Char :=
  methodChars f.method
    ++ (match f.seq with | some n => '|' :: '!' :: u32Digits n | none => [])
    ++ '|' :: f.auth
    ++ '|' :: f.serial
    ++ (match f.method with
      | .push => match f.pushBody with | some b => '|' :: buildPushBody b | none => []
      | .pull => match f.pullBody with | some b => '|' :: buildPullBody b | none => []
      | .ping => [])

/-- The status token emitted by build::frame::build_ack. -/
def statusChars : AckStatus → List Char
  | .ok => "OK".toList
  | .pong => "PONG".toList
  | .cmd => "CMD".toList
  | .err => "ERR".toList

/-- The detail bytes emitted by build::frame::build_ack. -/
def detailChars : AckDetail → List Char
  | .count n => u32Digits n
  | .«variables» s => s
  | .command s => s
  | .error _ text => text
  | .raw s => s

/-- build::frame::build_ack. -/
def buildAck (f : AckFrame) : List Char :=
  "ACK".toList
    ++ (match f.seq with | some n => '|' :: '!' :: u32Digits n | none => [])
    ++ '|' :: statusChars f.status
    ++ (match f.detail with | some d => '|' :: detailChars d | none => [])

-- Secure envelope layer from tagotip-secure.  Wire bytes are lists of
-- natural numbers below 256.

/-- tagotip-secure consts::HEADER_SIZE. -/
def HEADER_SIZE : Nat := 21
/-- tagotip-secure consts::CCM_TAG_SIZE. -/
def CCM_TAG_SIZE : Nat := 8
/-- tagotip-secure consts::GCM_TAG_SIZE. -/
def GCM_TAG_SIZE : Nat := 16
/-- tagotip-secure consts::CCM_NONCE_SIZE. -/
def CCM_NONCE_SIZE : Nat := 13
/-- tagotip-secure consts::GCM_NONCE_SIZE. -/
def GCM_NONCE_SIZE : Nat := 12
/-- tagotip-secure consts::AES_128_KEY_SIZE. -/
def AES_128_KEY_SIZE : Nat := 16
/-- tagotip-secure consts::AES_256_KEY_SIZE. -/
def AES_256_KEY_SIZE : Nat := 32
/-- tagotip-secure consts::MAX_INNER_FRAME_SIZE. -/
def MAX_INNER_FRAME_SIZE : Nat := 16384
/-- tagotip-secure consts::RESERVED_FLAGS_VALUE (0x41). -/
def RESERVED_FLAGS_VALUE : Nat := 65

/-- tagotip-secure error::CryptoErrorKind. -/
inductive CryptoErrorKind where
  | envelopeTooShort
  | unsupportedCipher
  | unsupportedVersion
  | invalidMethod
  | cipherNotEnabled
  | decryptionFailed
  | invalidKeySize
  | innerFrameTooLarge
  | envelopeTooLarge
  | bufferTooSmall
  | reservedFlagsValue
deriving DecidableEq, Repr

/-- tagotip-secure error::CryptoError. -/
structure CryptoError where
  kind : CryptoErrorKind
deriving DecidableEq, Repr

/-- tagotip-secure types::CipherSuite. -/
inductive CipherSuite where
  | aes128Ccm
  | aes128Gcm
  | aes256Ccm
  | aes256Gcm
  | chaCha20Poly1305
deriving DecidableEq, Repr

/-- CipherSuite::id. -/
def CipherSuite.id : CipherSuite → Nat
  | .aes128Ccm => 0
  | .aes128Gcm => 1
  | .aes256Ccm => 2
  | .aes256Gcm => 3
  | .chaCha20Poly1305 => 4

/-- CipherSuite::from_id. -/
def cipherSuiteFromId (id : Nat) : Except CryptoError CipherSuite :=
  if id = 0 then .ok .aes128Ccm
  else if id = 1 then .ok .aes128Gcm
  else if id = 2 then .ok .aes256Ccm
  else if id = 3 then .ok .aes256Gcm
  else if id = 4 then .ok .chaCha20Poly1305
  else .error ⟨.unsupportedCipher⟩

/-- CipherSuite::key_size. -/
def CipherSuite.keySize : CipherSuite → Nat
  | .aes128Ccm | .aes128Gcm => AES_128_KEY_SIZE
  | .aes256Ccm | .aes256Gcm | .chaCha20Poly1305 => AES_256_KEY_SIZE

/-- CipherSuite::tag_size. -/
def CipherSuite.tagSize : CipherSuite → Nat
  | .aes128Ccm | .aes256Ccm => CCM_TAG_SIZE
  | .aes128Gcm | .aes256Gcm | .chaCha20Poly1305 => GCM_TAG_SIZE

/-- CipherSuite::nonce_size. -/
def CipherSuite.nonceSize : CipherSuite → Nat
  | .aes128Ccm | .aes256Ccm => CCM_NONCE_SIZE
  | .aes128Gcm | .aes256Gcm | .chaCha20Poly1305 => GCM_NONCE_SIZE

/-- tagotip-secure types::EnvelopeMethod. -/
inductive EnvelopeMethod where
  | push
  | pull
  | ping
  | ack
deriving DecidableEq, Repr

/-- EnvelopeMethod::id. -/
def EnvelopeMethod.id : EnvelopeMethod → Nat
  | .push => 0
  | .pull => 1
  | .ping => 2
  | .ack => 3

/-- EnvelopeMethod::from_id. -/
def envelopeMethodFromId (id : Nat) : Except CryptoError EnvelopeMethod :=
  if id = 0 then .ok .push
  else if id = 1 then .ok .pull
  else if id = 2 then .ok .ping
  else if id = 3 then .ok .ack
  else .error ⟨.invalidMethod⟩

/-- types::Flags::encode. -/
def flagsEncode (cipher : CipherSuite) (version : Nat) (method : EnvelopeMethod) :
    Except CryptoError Nat :=
  if 3 < version then .error ⟨.unsupportedVersion⟩
  else
    let byte := (cipher.id <<< 5) ||| (version <<< 3) ||| method.id
    if byte = RESERVED_FLAGS_VALUE then .error ⟨.reservedFlagsValue⟩
    else .ok byte

/-- types::Flags::decode. -/
def flagsDecode (byte : Nat) : Except CryptoError (CipherSuite × Nat × EnvelopeMethod) :=
  if byte = RESERVED_FLAGS_VALUE then .error ⟨.reservedFlagsValue⟩
  else do
    let cipher ← cipherSuiteFromId ((byte &&& 224) >>> 5)
    let version := (byte &&& 24) >>> 3
    let method ← envelopeMethodFromId (byte &&& 7)
    pure (cipher, version, method)

/-- types::EnvelopeHeader. -/
structure EnvelopeHeader where
  flags : Nat
  counter : Nat
  authHash : List Nat
  deviceHash : List Nat
deriving DecidableEq, Repr

/-- u32::to_be_bytes (standard library semantics). -/
def be32 (n : Nat) : List Nat :=
  [n / 16777216 % 256, n / 65536 % 256, n / 256 % 256, n % 256]

/-- u32::from_be_bytes (standard library semantics). -/
def u32FromBe (l : List Nat) : Nat :=
  match l with
  | [a, b, c, d] => a * 16777216 + b * 65536 + c * 256 + d
  | _ => 0

/-- EnvelopeHeader::to_bytes: flags, big-endian counter, auth hash,
device hash (21 bytes when the hashes have their fixed length 8). -/
def headerBytes (h : EnvelopeHeader) : List Nat :=
  h.flags :: be32 h.counter ++ h.authHash ++ h.deviceHash

/-- EnvelopeHeader::from_bytes. -/
def headerFromBytes (data : List Nat) : Except CryptoError EnvelopeHeader :=
  if data.length < HEADER_SIZE then .error ⟨.envelopeTooShort⟩
  else
    .ok ⟨data.headD 0, u32FromBe ((data.drop 1).take 4),
      (data.drop 5).take 8, (data.drop 13).take 8⟩

/-- Overwrite a range of a byte vector starting at an offset
(slice::copy_from_slice on a subrange). -/
def overwriteAt (l : List Nat) (off : Nat) (src : List Nat) : List Nat :=
  l.take off ++ src ++ l.drop (off + src.length)

/-- nonce::construct_nonce. -/
def constructNonce (suite : CipherSuite) (flags : Nat) (deviceHash : List Nat)
    (counter : Nat) : List Nat :=
  let nonceSize := suite.nonceSize
  let nonce := List.replicate nonceSize 0
  let nonce := nonce.set 0 flags
  let nonce := overwriteAt nonce (nonceSize - 8) (deviceHash.take 4)
  overwriteAt nonce (nonceSize - 4) (be32 counter)

/-- The pair of library-backed AEAD primitives that cipher.rs dispatches
to.  These implementations live in external RustCrypto crates, outside
this repository, so the envelope layer is parameterised by them. -/
structure AeadPrimitives where
  encrypt : CipherSuite → List Nat → List Nat → List Nat → List Nat → Except CryptoError (List Nat)
  decrypt : CipherSuite → List Nat → List Nat → List Nat → List Nat → Except CryptoError (List Nat)

/-- cipher::aead_encrypt (key-size check, then suite dispatch). -/
def aeadEncrypt (P : AeadPrimitives) (suite : CipherSuite) (key nonce aad plaintext : List Nat) :
    Except CryptoError (List Nat) :=
  if key.length ≠ suite.keySize then .error ⟨.invalidKeySize⟩
  else P.encrypt suite key nonce aad plaintext

/-- cipher::aead_decrypt (key-size check, then suite dispatch). -/
def aeadDecrypt (P : AeadPrimitives) (suite : CipherSuite) (key nonce aad ct : List Nat) :
    Except CryptoError (List Nat) :=
  if key.length ≠ suite.keySize then .error ⟨.invalidKeySize⟩
  else P.decrypt suite key nonce aad ct

/-- envelope::seal_raw. -/
def sealRaw (P : AeadPrimitives) (innerFrame : List Nat) (method : EnvelopeMethod)
    (counter : Nat) (authHash deviceHash : List Nat) (encryptionKey : List Nat)
    (cipherSuite : CipherSuite) : Except CryptoError (List Nat) :=
  if MAX_INNER_FRAME_SIZE < innerFrame.length then .error ⟨.innerFrameTooLarge⟩
  else if encryptionKey.length ≠ cipherSuite.keySize then .error ⟨.invalidKeySize⟩
  else do
    let flags ← flagsEncode cipherSuite 0 method
    let header : EnvelopeHeader := ⟨flags, counter, authHash, deviceHash⟩
    let aad := headerBytes header
    let nonce := constructNonce cipherSuite flags deviceHash counter
    let ciphertextWithTag ← aeadEncrypt P cipherSuite encryptionKey nonce aad innerFrame
    let envelopeSize := HEADER_SIZE + ciphertextWithTag.length
    if MAX_INNER_FRAME_SIZE + HEADER_SIZE + cipherSuite.tagSize < envelopeSize then
      throw ⟨.envelopeTooLarge⟩
    else pure (aad ++ ciphertextWithTag)

/-- envelope::parse_envelope_header. -/
def parseEnvelopeHeader (envelope : List Nat) : Except CryptoError EnvelopeHeader := do
  let header ← headerFromBytes envelope
  let _ ← flagsDecode header.flags
  pure header

/-- envelope::open_envelope. -/
def openEnvelope (P : AeadPrimitives) (envelope : List Nat) (encryptionKey : List Nat) :
    Except CryptoError (EnvelopeHeader × EnvelopeMethod × List Nat) := do
  let header ← parseEnvelopeHeader envelope
  let cvm ← flagsDecode header.flags
  if cvm.2.1 ≠ 0 then throw ⟨.unsupportedVersion⟩
  else if encryptionKey.length ≠ cvm.1.keySize then throw ⟨.invalidKeySize⟩
  else
    let ciphertextWithTag := envelope.drop HEADER_SIZE
    if ciphertextWithTag.length < cvm.1.tagSize then throw ⟨.envelopeTooShort⟩
    else do
      let aad := envelope.take HEADER_SIZE
      let nonce := constructNonce cvm.1 header.flags header.deviceHash header.counter
      let plaintext ← aeadDecrypt P cvm.1 encryptionKey nonce aad ciphertextWithTag
      pure (header, cvm.2.2, plaintext)

/-- envelope::is_envelope. -/
def isEnvelope (data : List Nat) : Bool :=
  match data.head? with
  | some b => b ≠ RESERVED_FLAGS_VALUE
  | none => false

/-- A concrete stand-in AEAD primitive pair satisfying the correctness
assumptions of the envelope theorems (ciphertext is the message followed
by a zero tag of the suite tag size); used to instantiate the
parameterised theorems on concrete inputs. -/
def mockAead : AeadPrimitives where
  encrypt := fun suite _ _ _ pt => .ok (pt ++ List.replicate suite.tagSize 0)
  decrypt := fun suite _ _ _ ct => .ok (ct.take (ct.length - suite.tagSize))

-- Item views of the semicolon-split loops, used to state which items the
-- loops act on.

/-- The escape-aware semicolon split performed by the loops of
parse::body::parse_variable_list and parse::body::parse_pull_body,
returning each item together with its start offset. -/
def escItemsAux (start idx : Nat) (cur : List Char) : List Char → List (Nat × List Char)
  | [] => [(start, cur.reverse)]
  | [c] =>
    if c = ';' then (start, cur.reverse) :: escItemsAux (idx + 1) (idx + 1) [] []
    else escItemsAux start (idx + 1) (c :: cur) []
  | c :: b :: r =>
    if c = ';' then (start, cur.reverse) :: escItemsAux (idx + 1) (idx + 1) [] (b :: r)
    else if c = '\\' then escItemsAux start (idx + 2) (b :: c :: cur) r
    else escItemsAux start (idx + 1) (c :: cur) (b :: r)

/-- All semicolon-separated items of a block with their offsets. -/
def escItems (s : List Char) : List (Nat × List Char) := escItemsAux 0 0 [] s

/-- The non-empty semicolon-separated items of a block. -/
def nonEmptyItems (s : List Char) : List (Nat × List Char) :=
  (escItems s).filter (fun p => !p.2.isEmpty)

/-- Sequential processing of explicit variable items (the item-level view
of the parse_variable_list loop). -/
def parseItemsPush (basePos : Nat) (vars : List Variable) (pool : List MetaPair) :
    List (Nat × List Char) → Except ParseError (List Variable × List MetaPair)
  | [] => .ok (vars, pool)
  | (st, item) :: rest => do
    let vp ← handlePushItem basePos st vars pool item
    parseItemsPush basePos vp.1 vp.2 rest

/-- Sequential processing of explicit pull-name items (the item-level view
of the parse_pull_body loop). -/
def parseItemsPull (basePos : Nat) (vars : List (List Char)) :
    List (Nat × List Char) → Except ParseError (List (List Char))
  | [] => .ok vars
  | (st, item) :: rest => do
    let vs ← handlePullItem basePos st vars item
    parseItemsPull basePos vs rest

-- The number grammar as the specification states it.

/-- The integer part of the number grammar stated in the spec:
a single 0, or a 1-9 digit followed by digits. -/
def IntPartForm (l : List Char) : Prop :=
  l = ['0'] ∨ ∃ c ds, l = c :: ds ∧ isOneNine c = true ∧ ds.all isAsciiDigit = true

/-- The optional fraction of the number grammar stated in the spec:
absent, or a dot followed by one or more digits. -/
def FracForm (l : List Char) : Prop :=
  l = [] ∨ ∃ ds, l = '.' :: ds ∧ ds ≠ [] ∧ ds.all isAsciiDigit = true

/-- The spec regular form for Number values: an optional minus sign, an
integer part, and an optional fraction. -/
def NumberForm (s : List Char) : Prop :=
  ∃ sign intp frac, (sign = [] ∨ sign = ['-']) ∧ IntPartForm intp ∧ FracForm frac ∧
    s = sign ++ intp ++ frac

-- Shared helper lemmas.

/-- Stripping does nothing when the last byte is not a newline. -/
theorem stripNewline_eq_self (l : List Char) (h : l.getLast? ≠ some '\n') :
    stripNewline l = l := by
  simp [stripNewline, h]

/-- Stripping removes exactly the one appended newline. -/
theorem stripNewline_append_newline (s : List Char) : stripNewline (s ++ ['\n']) = s := by
  simp [stripNewline, List.getLast?_concat, List.dropLast_concat]

/-- A replicated letter never contains the NUL byte. -/
theorem contains_nul_replicate (n : Nat) :
    (List.replicate n 'a').contains (Char.ofNat 0) = false := by
  induction n with
  | zero => rfl
  | succ m ih => simp [List.replicate_succ, ih]

/-- Oversized NUL-free inputs are rejected by parse_uplink with FrameTooLarge. -/
theorem parseUplink_frameTooLarge (s : List Char) (h1 : s.contains (Char.ofNat 0) = false)
    (h2 : MAX_FRAME_SIZE < s.length) : parseUplink s = .error ⟨.frameTooLarge, 0⟩ := by
  have h1m : ¬ Char.ofNat 0 ∈ s := by simpa using h1
  simp [parseUplink, h1m, h2]

/-- Field splitting passes a pipe-free, backslash-free suffix through as
part of the current field. -/
theorem splitFieldsAux_no_special :
    ∀ (l : List Char) (fields : List (List Char)) (cur : List Char),
      (∀ c ∈ l, c ≠ '|' ∧ c ≠ '\\') →
      splitFieldsAux fields cur l = fields ++ [cur.reverse ++ l]
  | [], fields, cur => by
    intro h
    simp [splitFieldsAux]
  | [c], fields, cur => by
    intro h
    obtain ⟨h1, h2⟩ := h c (by simp)
    simp [splitFieldsAux, h1]
  | c :: b :: r, fields, cur => by
    intro h
    obtain ⟨h1, h2⟩ := h c (by simp)
    have ih := splitFieldsAux_no_special (b :: r) fields (c :: cur)
      (fun x hx => h x (List.mem_cons_of_mem c hx))
    simp only [splitFieldsAux, if_neg h1, if_neg h2]
    rw [ih]
    simp

-- Claim theorems.

/-- C1: Round-trip on accepted plaintext fails on the code as written.
The uplink frame whose body prefix puts the group before the timestamp is
accepted by parse_uplink (the repository's own test
body_group_after_timestamp_rejected expects it to be rejected), and
build_uplink re-emits the modifiers in the swapped order, so the rebuilt
bytes differ from the accepted input and are not merely a trailing-newline
variant of it. -/
theorem parse_build_uplink_roundtrip_violation :
    (parseUplink (("PUSH|ate2bd319014b24e0a8aca9f00aea4c0d0|sensor_01|^group_01@1694567890000[temp:=32]").toList)).map buildUplink
      = .ok (("PUSH|ate2bd319014b24e0a8aca9f00aea4c0d0|sensor_01|@1694567890000^group_01[temp:=32]").toList)
    ∧ (("PUSH|ate2bd319014b24e0a8aca9f00aea4c0d0|sensor_01|@1694567890000^group_01[temp:=32]").toList : List Char)
        ≠ ("PUSH|ate2bd319014b24e0a8aca9f00aea4c0d0|sensor_01|^group_01@1694567890000[temp:=32]").toList
    ∧ (("PUSH|ate2bd319014b24e0a8aca9f00aea4c0d0|sensor_01|@1694567890000^group_01[temp:=32]").toList : List Char) ++ ['\n']
        ≠ ("PUSH|ate2bd319014b24e0a8aca9f00aea4c0d0|sensor_01|^group_01@1694567890000[temp:=32]").toList := by
  refine ⟨by decide, by decide, by decide⟩

/-- C2: The body-modifier state machine of parse_body_modifiers enforces
the order caret-group, then at-timestamp, then brace-metadata — the
reverse of the order the claim, the builder and the repository's tests
require.  The spec-ordered prefix with the timestamp first is rejected
with InvalidModifier, while the prefix with the group first is accepted. -/
theorem parse_body_modifiers_order_inverted :
    errKind (parsePushBody (("@1694567890000^group_01{firmware=2.1}[temp:=32]").toList) 0)
        = some .invalidModifier
    ∧ parsePushBody (("^group_01@1694567890000[temp:=32]").toList) 0
        = .ok (.structured ⟨some (("group_01").toList), some (("1694567890000").toList), none,
            [⟨("temp").toList, .number, .number (("32").toList), none, none, none, none⟩], []⟩) := by
  refine ⟨by decide, by decide⟩

/-- C3 counterexample: seal_raw does not succeed for every suite and
method — the pair AES-256-CCM with method Pull encodes to the reserved
flags byte 0x41 and seal_raw rejects it before encrypting. -/
theorem seal_raw_reserved_pair_fails :
    sealRaw mockAead [104] .pull 0 (List.replicate 8 0) (List.replicate 8 0)
        (List.replicate 32 0) .aes256Ccm = .error ⟨.reservedFlagsValue⟩ := by
  decide

/-- C5 counterexample: the accepted ACK frame with a zero-padded OK count
is parsed as Count 7 and rebuilt in canonical form, so build_ack does not
reproduce the accepted input (and not as a trailing-newline variant
either). -/
theorem parse_build_ack_roundtrip_violation :
    (parseAck (("ACK|OK|007").toList)).map buildAck = .ok (("ACK|OK|7").toList)
    ∧ (("ACK|OK|7").toList : List Char) ≠ ("ACK|OK|007").toList
    ∧ (("ACK|OK|7").toList : List Char) ++ ['\n'] ≠ ("ACK|OK|007").toList := by
  refine ⟨by decide, by decide, by decide⟩

/-- C6 counterexample: parse_ack accepts an input containing a NUL byte
(only parse_uplink applies the NUL precondition). -/
theorem parse_ack_accepts_nul :
    parseAck (("ACK|CMD|x").toList ++ [Char.ofNat 0])
      = .ok ⟨none, .cmd, some (.command ['x', Char.ofNat 0])⟩ := by
  decide

set_option maxRecDepth 4000 in
/-- C7 counterexample: a 101-byte serial is rejected with InvalidSerial,
not with the InvalidField kind the claim names. -/
theorem over_long_serial_is_invalid_serial :
    errKind (parseUplink (("PUSH|ate2bd319014b24e0a8aca9f00aea4c0d0|").toList
        ++ List.replicate 101 's' ++ ("|[a:=1]").toList)) = some .invalidSerial
    ∧ some ParseErrorKind.invalidSerial ≠ some ParseErrorKind.invalidField := by
  refine ⟨by decide, by decide⟩

/-- C9 counterexample: validate_number accepts the string -0, which the
claim lists among the rejected leading-zero forms. -/
theorem validate_number_accepts_minus_zero :
    validateNumber (("-0").toList) 0 = .ok () := by
  decide

/-- C8: construct_nonce produces, for the CCM suites, the thirteen bytes
flags, four zero bytes, the first four bytes of the device hash, and the
big-endian counter; and for the GCM and ChaCha20-Poly1305 suites the
twelve bytes flags, three zero bytes, the first four device-hash bytes,
and the big-endian counter. -/
theorem construct_nonce_layout (suite : CipherSuite) (flags counter : Nat)
    (dh : List Nat) (h : dh.length = 8) :
    ((suite = .aes128Ccm ∨ suite = .aes256Ccm) →
      constructNonce suite flags dh counter
        = flags :: 0 :: 0 :: 0 :: 0 :: (dh.take 4 ++ be32 counter))
    ∧ ((suite = .aes128Gcm ∨ suite = .aes256Gcm ∨ suite = .chaCha20Poly1305) →
      constructNonce suite flags dh counter
        = flags :: 0 :: 0 :: 0 :: (dh.take 4 ++ be32 counter)) := by
  rcases dh with _ | ⟨a0, _ | ⟨a1, _ | ⟨a2, _ | ⟨a3, tail⟩⟩⟩⟩ <;> simp at h
  constructor
  · rintro (rfl | rfl) <;> rfl
  · rintro (rfl | rfl | rfl) <;> rfl

/-- C8 witness: the CCM layout at a concrete suite, flags byte, device
hash and counter. -/
theorem construct_nonce_layout_witness :
    constructNonce .aes128Ccm 7 (List.replicate 8 3) 5
      = 7 :: 0 :: 0 :: 0 :: 0 :: ((List.replicate 8 3).take 4 ++ be32 5) :=
  (construct_nonce_layout .aes128Ccm 7 5 (List.replicate 8 3) (by decide)).1 (Or.inl rfl)

/-- C6: parse_uplink rejects any input containing a NUL byte (NulByte)
and any NUL-free input longer than 16,384 bytes (FrameTooLarge), and
strips exactly one trailing newline before field interpretation; but
parse_ack only strips the one trailing newline — it applies no NUL and
no size precondition, accepting arbitrarily long detail fields. -/
theorem parse_preconditions_split :
    (∀ s : List Char, s.contains (Char.ofNat 0) = true → parseUplink s = .error ⟨.nulByte, 0⟩)
    ∧ (∀ s : List Char, s.contains (Char.ofNat 0) = false → MAX_FRAME_SIZE < s.length →
        parseUplink s = .error ⟨.frameTooLarge, 0⟩)
    ∧ (∀ s : List Char, s.contains (Char.ofNat 0) = false → s.length + 1 ≤ MAX_FRAME_SIZE →
        parseUplink (s ++ ['\n']) = uplinkCore s)
    ∧ (∀ s : List Char, parseAck (s ++ ['\n']) = parseAckCore s)
    ∧ (∀ n : Nat, parseAck (("ACK|CMD|").toList ++ List.replicate n 'a')
        = .ok ⟨none, .cmd, some (.command (List.replicate n 'a'))⟩) := by
  refine ⟨?_, ?_, ?_, ?_, ?_⟩
  · intro s h
    have hm : Char.ofNat 0 ∈ s := by simpa using h
    simp [parseUplink, hm]
  · intro s h1 h2
    exact parseUplink_frameTooLarge s h1 h2
  · intro s h1 h2
    have hm : ¬ Char.ofNat 0 ∈ (s ++ ['\n']) := by
      simp
      simpa using h1
    have hlen : ¬ MAX_FRAME_SIZE < s.length + 1 := by omega
    simp [parseUplink, hm, hlen, stripNewline_append_newline, List.length_append]
  · intro s
    simp [parseAck, stripNewline_append_newline]
  · intro n
    have hstrip : stripNewline (("ACK|CMD|").toList ++ List.replicate n 'a')
        = ("ACK|CMD|").toList ++ List.replicate n 'a' := by
      cases n with
      | zero => decide
      | succ m =>
        apply stripNewline_eq_self
        rw [List.replicate_succ', ← List.append_assoc, List.getLast?_concat]
        decide
    rw [parseAck, hstrip]
    have hsplit : splitFields (("ACK|CMD|").toList ++ List.replicate n 'a')
        = [("ACK").toList, ("CMD").toList, List.replicate n 'a'] := by
      cases n with
      | zero => decide
      | succ m =>
        rw [List.replicate_succ]
        have step : splitFields (("ACK|CMD|").toList ++ 'a' :: List.replicate m 'a')
            = splitFieldsAux [("ACK").toList, ("CMD").toList] [] ('a' :: List.replicate m 'a') := rfl
        rw [step, splitFieldsAux_no_special ('a' :: List.replicate m 'a') _ _ ?side]
        · simp
        case side =>
          intro x hx
          have : x = 'a' := by
            rcases List.mem_cons.mp hx with h | h
            · exact h
            · exact (List.eq_of_mem_replicate h)
          subst this
          exact ⟨by decide, by decide⟩
    rw [parseAckCore, hsplit]
    rfl

/-- C6 witness: the preconditions at concrete inputs — a NUL-only input
rejected by parse_uplink, a newline-terminated ACK stripped once, and a
five-byte command detail accepted by parse_ack. -/
theorem parse_preconditions_split_witness :
    parseUplink [Char.ofNat 0] = .error ⟨.nulByte, 0⟩
    ∧ parseAck (("ACK|OK").toList ++ ['\n']) = parseAckCore (("ACK|OK").toList)
    ∧ parseAck (("ACK|CMD|").toList ++ List.replicate 5 'a')
        = .ok ⟨none, .cmd, some (.command (List.replicate 5 'a'))⟩ :=
  ⟨parse_preconditions_split.1 [Char.ofNat 0] (by decide),
   parse_preconditions_split.2.2.2.1 (("ACK|OK").toList),
   parse_preconditions_split.2.2.2.2 5⟩

/-- C4: no successful output of seal_raw has first byte 0x41 (the flags
byte is produced by Flags::encode, which refuses the reserved value), and
every input whose first byte is 0x41 is rejected by open_envelope (either
as too short, or by Flags::decode in parse_envelope_header). -/
theorem reserved_byte_invariant :
    (∀ (P : AeadPrimitives) (pt : List Nat) (m : EnvelopeMethod) (ctr : Nat)
        (ah dh key env : List Nat) (S : CipherSuite),
      sealRaw P pt m ctr ah dh key S = .ok env → env.head? ≠ some RESERVED_FLAGS_VALUE)
    ∧ (∀ (P : AeadPrimitives) (env key : List Nat),
      env.head? = some RESERVED_FLAGS_VALUE → (openEnvelope P env key).isOk = false) := by
  constructor
  · intro P pt m ctr ah dh key env S h
    unfold sealRaw at h
    by_cases hA : MAX_INNER_FRAME_SIZE < pt.length
    · simp [hA] at h
    by_cases hB : key.length ≠ S.keySize
    · simp [hA, hB] at h
    rw [if_neg hA, if_neg hB] at h
    rcases hf : flagsEncode S 0 m with e | flags
    · rw [hf] at h
      simp [Bind.bind, Except.bind] at h
    · rw [hf] at h
      have hflag : flags ≠ RESERVED_FLAGS_VALUE := by
        by_cases hbyte : (S.id <<< 5 ||| EnvelopeMethod.id m) = RESERVED_FLAGS_VALUE
        · simp [flagsEncode, hbyte] at hf
        · simp [flagsEncode, hbyte] at hf
          subst hf
          exact hbyte
      simp only [Bind.bind, Except.bind] at h
      rcases henc : aeadEncrypt P S key (constructNonce S flags dh ctr)
          (headerBytes ⟨flags, ctr, ah, dh⟩) pt with e2 | ct
      · rw [henc] at h
        exact Except.noConfusion h
      · rw [henc] at h
        by_cases hS : MAX_INNER_FRAME_SIZE + HEADER_SIZE + S.tagSize < HEADER_SIZE + ct.length
        · simp [hS, throw, throwThe, MonadExceptOf.throw] at h
        · simp [hS, pure, Except.pure] at h
          rw [← h]
          simp [headerBytes]
          exact hflag
  · intro P env key h
    rcases env with _ | ⟨b, rest⟩
    · simp at h
    · have hb : b = RESERVED_FLAGS_VALUE := by simpa using h
      subst hb
      unfold openEnvelope parseEnvelopeHeader headerFromBytes
      by_cases hl : rest.length + 1 < HEADER_SIZE
      · simp [hl, Bind.bind, Except.bind, Except.isOk, Except.toBool]
      · simp [hl, Bind.bind, Except.bind, flagsDecode, Except.isOk, Except.toBool]

/-- C4 witness: the invariant applied to a concrete sealed envelope and a
concrete one-byte input starting with 0x41. -/
theorem reserved_byte_invariant_witness :
    ([0, 0, 0, 0, 1, 0, 0, 0, 0, 0, 0, 0, 0, 0, 0, 0, 0, 0, 0, 0, 0,
        104, 0, 0, 0, 0, 0, 0, 0, 0] : List Nat).head? ≠ some RESERVED_FLAGS_VALUE
    ∧ (openEnvelope mockAead [65] []).isOk = false :=
  ⟨reserved_byte_invariant.1 mockAead [104] .push 1 (List.replicate 8 0) (List.replicate 8 0)
      (List.replicate 16 0) _ .aes128Ccm (by decide),
   reserved_byte_invariant.2 mockAead [65] [] (by decide)⟩

/-- The header serializes to 21 bytes when the hashes have length 8. -/
theorem headerBytes_length (h : EnvelopeHeader) (hah : h.authHash.length = 8)
    (hdh : h.deviceHash.length = 8) : (headerBytes h).length = 21 := by
  simp [headerBytes, be32, hah, hdh]

/-- Big-endian u32 serialization round-trips below 2^32. -/
theorem be32_u32FromBe (n : Nat) (h : n < 4294967296) : u32FromBe (be32 n) = n := by
  simp [be32, u32FromBe]
  omega

/-- For every suite and method other than the reserved AES-256-CCM with
Pull pair, Flags::encode succeeds and Flags::decode inverts it. -/
theorem flagsEncode_nonreserved (S : CipherSuite) (m : EnvelopeMethod)
    (h : ¬(S = .aes256Ccm ∧ m = .pull)) :
    flagsEncode S 0 m = .ok ((S.id <<< 5) ||| m.id)
    ∧ flagsDecode ((S.id <<< 5) ||| m.id) = .ok (S, 0, m) := by
  cases S <;> cases m <;>
    first
      | exact ⟨by decide, by decide⟩
      | exact absurd ⟨rfl, rfl⟩ h

/-- Dropping the length of a left append component yields the right one. -/
theorem drop_append_length {α : Type} (l1 l2 : List α) (n : Nat) (h : l1.length = n) :
    (l1 ++ l2).drop n = l2 := by
  subst h
  exact List.drop_left _ _

/-- Taking the length of a left append component yields it. -/
theorem take_append_length {α : Type} (l1 l2 : List α) (n : Nat) (h : l1.length = n) :
    (l1 ++ l2).take n = l1 := by
  subst h
  exact List.take_left _ _

/-- C3: seal-open duality, amended to exclude the reserved flags pair.
For every AEAD primitive pair whose decrypt inverts encrypt and whose
ciphertext is the plaintext plus the suite tag, every suite and method
whose flags byte is not the reserved 0x41 (that is, excluding AES-256-CCM
with Pull), every u32 counter, 8-byte hashes, key of the correct length
and inner bytes of length at most 16,384: seal_raw succeeds, and
open_envelope on its output with the same key returns the header with the
sealed counter and hashes, the method, and the inner bytes. -/
theorem seal_open_duality (P : AeadPrimitives)
    (hE : ∀ (S : CipherSuite) (key nonce aad pt : List Nat), key.length = S.keySize →
        ∃ ct, P.encrypt S key nonce aad pt = .ok ct ∧ ct.length = pt.length + S.tagSize)
    (hD : ∀ (S : CipherSuite) (key nonce aad pt ct : List Nat),
        P.encrypt S key nonce aad pt = .ok ct → P.decrypt S key nonce aad ct = .ok pt)
    (S : CipherSuite) (m : EnvelopeMethod) (ctr : Nat) (ah dh key pt : List Nat)
    (hah : ah.length = 8) (hdh : dh.length = 8) (hctr : ctr < 4294967296)
    (hkey : key.length = S.keySize) (hpt : pt.length ≤ 16384)
    (hres : ¬(S = .aes256Ccm ∧ m = .pull)) :
    ∃ env, sealRaw P pt m ctr ah dh key S = .ok env
      ∧ openEnvelope P env key
          = .ok (⟨(S.id <<< 5) ||| m.id, ctr, ah, dh⟩, m, pt) := by
  have hm : MAX_INNER_FRAME_SIZE = 16384 := rfl
  have hhs : HEADER_SIZE = 21 := rfl
  obtain ⟨henc, hdec⟩ := flagsEncode_nonreserved S m hres
  obtain ⟨ct, hct, hctlen⟩ :=
    hE S key (constructNonce S ((S.id <<< 5) ||| m.id) dh ctr)
      (headerBytes ⟨(S.id <<< 5) ||| m.id, ctr, ah, dh⟩) pt hkey
  have haead : aeadEncrypt P S key (constructNonce S ((S.id <<< 5) ||| m.id) dh ctr)
      (headerBytes ⟨(S.id <<< 5) ||| m.id, ctr, ah, dh⟩) pt = .ok ct := by
    unfold aeadEncrypt
    rw [if_neg (by omega)]
    exact hct
  have hadec : aeadDecrypt P S key (constructNonce S ((S.id <<< 5) ||| m.id) dh ctr)
      (headerBytes ⟨(S.id <<< 5) ||| m.id, ctr, ah, dh⟩) ct = .ok pt := by
    unfold aeadDecrypt
    rw [if_neg (by omega)]
    exact hD S key _ _ pt ct hct
  have haadlen : (headerBytes ⟨(S.id <<< 5) ||| m.id, ctr, ah, dh⟩).length = 21 :=
    headerBytes_length _ hah hdh
  have hdrop : (headerBytes ⟨(S.id <<< 5) ||| m.id, ctr, ah, dh⟩ ++ ct).drop HEADER_SIZE = ct := by
    exact drop_append_length _ _ _ haadlen
  have htake : (headerBytes ⟨(S.id <<< 5) ||| m.id, ctr, ah, dh⟩ ++ ct).take HEADER_SIZE
      = headerBytes ⟨(S.id <<< 5) ||| m.id, ctr, ah, dh⟩ := by
    exact take_append_length _ _ _ haadlen
  have hfrom : headerFromBytes (headerBytes ⟨(S.id <<< 5) ||| m.id, ctr, ah, dh⟩ ++ ct)
      = .ok ⟨(S.id <<< 5) ||| m.id, ctr, ah, dh⟩ := by
    unfold headerFromBytes
    rw [if_neg (by simp [haadlen]; omega)]
    have h1 : (headerBytes ⟨(S.id <<< 5) ||| m.id, ctr, ah, dh⟩ ++ ct).headD 0
        = (S.id <<< 5) ||| m.id := by
      simp [headerBytes]
    have h2 : ((headerBytes ⟨(S.id <<< 5) ||| m.id, ctr, ah, dh⟩ ++ ct).drop 1).take 4
        = be32 ctr := by
      have hsh : headerBytes ⟨(S.id <<< 5) ||| m.id, ctr, ah, dh⟩ ++ ct
          = ((S.id <<< 5) ||| m.id) :: (be32 ctr ++ (ah ++ (dh ++ ct))) := by
        simp [headerBytes]
      rw [hsh]
      simp only [List.drop_succ_cons, List.drop_zero]
      exact take_append_length _ _ _ (by simp [be32])
    have h3 : ((headerBytes ⟨(S.id <<< 5) ||| m.id, ctr, ah, dh⟩ ++ ct).drop 5).take 8 = ah := by
      have hsh : headerBytes ⟨(S.id <<< 5) ||| m.id, ctr, ah, dh⟩ ++ ct
          = ((((S.id <<< 5) ||| m.id) :: be32 ctr) ++ (ah ++ (dh ++ ct))) := by
        simp [headerBytes]
      rw [hsh]
      rw [drop_append_length _ _ 5 (by simp [be32])]
      exact take_append_length _ _ _ hah
    have h4 : ((headerBytes ⟨(S.id <<< 5) ||| m.id, ctr, ah, dh⟩ ++ ct).drop 13).take 8 = dh := by
      have hsh : headerBytes ⟨(S.id <<< 5) ||| m.id, ctr, ah, dh⟩ ++ ct
          = ((((S.id <<< 5) ||| m.id) :: be32 ctr) ++ ah) ++ (dh ++ ct) := by
        simp [headerBytes]
      rw [hsh]
      rw [drop_append_length _ _ 13 (by simp [be32, hah])]
      exact take_append_length _ _ _ hdh
    rw [h1, h2, h3, h4, be32_u32FromBe ctr hctr]
  have hkeyne : ¬ (key.length ≠ S.keySize) := by omega
  have hclt : ¬ (ct.length < S.tagSize) := by omega
  refine ⟨headerBytes ⟨(S.id <<< 5) ||| m.id, ctr, ah, dh⟩ ++ ct, ?_, ?_⟩
  · unfold sealRaw
    rw [if_neg (by omega), if_neg (by omega)]
    simp only [Bind.bind]
    rw [henc]
    simp only [Except.bind]
    rw [haead]
    simp only [Except.bind]
    rw [if_neg (by omega)]
    rfl
  · unfold openEnvelope parseEnvelopeHeader
    simp only [Bind.bind]
    rw [hfrom]
    simp only [Except.bind, pure, Except.pure]
    simp [hdec, hdrop, htake, hclt, hkeyne, hadec]

/-- The stand-in primitives always encrypt, appending a tag of the suite
tag size. -/
theorem mockAead_encrypt_ok (S : CipherSuite) (key nonce aad pt : List Nat)
    (_h : key.length = S.keySize) :
    ∃ ct, mockAead.encrypt S key nonce aad pt = .ok ct
      ∧ ct.length = pt.length + S.tagSize := by
  refine ⟨pt ++ List.replicate S.tagSize 0, rfl, by simp⟩

/-- The stand-in decrypt inverts the stand-in encrypt. -/
theorem mockAead_decrypt_inverts (S : CipherSuite) (key nonce aad pt ct : List Nat)
    (h : mockAead.encrypt S key nonce aad pt = .ok ct) :
    mockAead.decrypt S key nonce aad ct = .ok pt := by
  simp only [mockAead] at h ⊢
  injection h with h2
  subst h2
  simp [List.take_left]

/-- C3 witness: the duality at a concrete suite, method, counter, hashes,
key and plaintext, under the stand-in primitives. -/
theorem seal_open_duality_witness :
    ∃ env, sealRaw mockAead [104] .push 1 (List.replicate 8 0) (List.replicate 8 0)
        (List.replicate 16 0) .aes128Ccm = .ok env
      ∧ openEnvelope mockAead env (List.replicate 16 0)
          = .ok (⟨(CipherSuite.aes128Ccm.id <<< 5) ||| EnvelopeMethod.push.id, 1,
              List.replicate 8 0, List.replicate 8 0⟩, .push, [104]) :=
  seal_open_duality mockAead
    (fun S key nonce aad pt hk => mockAead_encrypt_ok S key nonce aad pt hk)
    (fun S key nonce aad pt ct h => mockAead_decrypt_inverts S key nonce aad pt ct h)
    .aes128Ccm .push 1 (List.replicate 8 0) (List.replicate 8 0) (List.replicate 16 0) [104]
    (by decide) (by decide) (by decide) (by decide) (by decide) (by decide)

end TagoTiP
namespace TagoTiP

theorem isEmpty_false_of_ne {α : Type} (l : List α) (h : l ≠ []) : l.isEmpty = false := by
  cases l <;> simp_all

theorem parseItemsPush_nil (b : Nat) (vars : List Variable) (pool : List MetaPair) :
    parseItemsPush b vars pool [] = .ok (vars, pool) := rfl

theorem parseItemsPush_cons (b st : Nat) (item : List Char) (vars : List Variable)
    (pool : List MetaPair) (rest : List (Nat × List Char)) :
    parseItemsPush b vars pool ((st, item) :: rest)
      = (handlePushItem b st vars pool item).bind
          (fun vp => parseItemsPush b vp.1 vp.2 rest) := by
  simp [parseItemsPush, Bind.bind]

theorem pvl_items :
    ∀ (l : List Char) (basePos : Nat) (vars : List Variable) (pool : List MetaPair)
      (start idx : Nat) (cur : List Char),
      parseVariableListAux basePos vars pool start idx cur l
        = parseItemsPush basePos vars pool
            ((escItemsAux start idx cur l).filter (fun p => !p.2.isEmpty))
  | [], b, vars, pool, start, idx, cur => by
    by_cases he : cur.reverse = []
    · simp [parseVariableListAux, escItemsAux, List.filter_cons, he, handlePushItem,
        parseItemsPush_nil]
    · have hne := isEmpty_false_of_ne _ he
      simp only [parseVariableListAux, escItemsAux, List.filter_cons, List.filter_nil, hne,
        Bool.not_false, if_true, parseItemsPush_cons]
      rcases hh : handlePushItem b start vars pool cur.reverse with e | vp
      · simp [hh, Except.bind]
      · simp [hh, Except.bind, parseItemsPush_nil]
  | [c], b, vars, pool, start, idx, cur => by
    by_cases hc : c = ';'
    · subst hc
      by_cases he : cur.reverse = []
      · have ih := pvl_items [] b vars pool (idx + 1) (idx + 1) []
        simp only [parseVariableListAux, escItemsAux, List.filter_cons, he, List.isEmpty_nil,
          Bool.not_true, if_neg, Bool.false_eq_true, not_false_eq_true, reduceIte]
        rw [show handlePushItem b start vars pool [] = .ok (vars, pool) from rfl]
        simp [Bind.bind, Except.bind, ih, handlePushItem, parseItemsPush_nil]
      · have hne := isEmpty_false_of_ne _ he
        simp only [parseVariableListAux, escItemsAux, List.filter_cons, hne,
          Bool.not_false, if_true, parseItemsPush_cons]
        rcases hh : handlePushItem b start vars pool cur.reverse with e | vp
        · simp [hh, Bind.bind, Except.bind]
        · have ih := pvl_items [] b vp.1 vp.2 (idx + 1) (idx + 1) []
          simp [hh, Bind.bind, Except.bind, ih, handlePushItem, parseItemsPush_nil]
    · have ih := pvl_items [] b vars pool start (idx + 1) (c :: cur)
      simp only [parseVariableListAux, escItemsAux, if_neg hc]
      exact ih
  | c :: d :: r, b, vars, pool, start, idx, cur => by
    by_cases hc : c = ';'
    · subst hc
      by_cases he : cur.reverse = []
      · have ih := pvl_items (d :: r) b vars pool (idx + 1) (idx + 1) []
        simp only [parseVariableListAux, escItemsAux, List.filter_cons, he, List.isEmpty_nil,
          Bool.not_true, Bool.false_eq_true, not_false_eq_true, reduceIte]
        rw [show handlePushItem b start vars pool [] = .ok (vars, pool) from rfl]
        simp [Bind.bind, Except.bind, ih, handlePushItem, parseItemsPush_nil]
      · have hne := isEmpty_false_of_ne _ he
        simp only [parseVariableListAux, escItemsAux, List.filter_cons, hne,
          Bool.not_false, if_true, parseItemsPush_cons]
        rcases hh : handlePushItem b start vars pool cur.reverse with e | vp
        · simp [hh, Bind.bind, Except.bind]
        · have ih := pvl_items (d :: r) b vp.1 vp.2 (idx + 1) (idx + 1) []
          simp [hh, Bind.bind, Except.bind, ih, handlePushItem, parseItemsPush_nil]
    · by_cases hb : c = '\\'
      · subst hb
        have ih := pvl_items r b vars pool start (idx + 2) (d :: '\\' :: cur)
        simp only [parseVariableListAux, escItemsAux, if_neg hc, if_pos rfl]
        exact ih
      · have ih := pvl_items (d :: r) b vars pool start (idx + 1) (c :: cur)
        simp only [parseVariableListAux, escItemsAux, if_neg hc, if_neg hb]
        exact ih

end TagoTiP

namespace TagoTiP

theorem parseItemsPull_nil (b : Nat) (vars : List (List Char)) :
    parseItemsPull b vars [] = .ok vars := rfl

theorem parseItemsPull_cons (b st : Nat) (item : List Char) (vars : List (List Char))
    (rest : List (Nat × List Char)) :
    parseItemsPull b vars ((st, item) :: rest)
      = (handlePullItem b st vars item).bind (fun vs => parseItemsPull b vs rest) := by
  simp [parseItemsPull, Bind.bind]

theorem pvl_pull_items :
    ∀ (l : List Char) (basePos : Nat) (vars : List (List Char)) (start idx : Nat)
      (cur : List Char),
      parsePullBodyAux basePos vars start idx cur l
        = parseItemsPull basePos vars
            ((escItemsAux start idx cur l).filter (fun p => !p.2.isEmpty))
  | [], b, vars, start, idx, cur => by
    by_cases he : cur.reverse = []
    · simp [parsePullBodyAux, escItemsAux, List.filter_cons, he, handlePullItem,
        parseItemsPull_nil]
    · have hne := isEmpty_false_of_ne _ he
      simp only [parsePullBodyAux, escItemsAux, List.filter_cons, List.filter_nil, hne,
        Bool.not_false, if_true, parseItemsPull_cons]
      rcases hh : handlePullItem b start vars cur.reverse with e | vs
      · simp [hh, Except.bind]
      · simp [hh, Except.bind, parseItemsPull_nil]
  | [c], b, vars, start, idx, cur => by
    by_cases hc : c = ';'
    · subst hc
      by_cases he : cur.reverse = []
      · have ih := pvl_pull_items [] b vars (idx + 1) (idx + 1) []
        simp only [parsePullBodyAux, escItemsAux, List.filter_cons, he, List.isEmpty_nil,
          Bool.not_true, Bool.false_eq_true, not_false_eq_true, reduceIte]
        rw [show handlePullItem b start vars [] = .ok vars from rfl]
        simp [Bind.bind, Except.bind, ih, handlePullItem, parseItemsPull_nil]
      · have hne := isEmpty_false_of_ne _ he
        simp only [parsePullBodyAux, escItemsAux, List.filter_cons, hne,
          Bool.not_false, if_true, parseItemsPull_cons]
        rcases hh : handlePullItem b start vars cur.reverse with e | vs
        · simp [hh, Bind.bind, Except.bind]
        · have ih := pvl_pull_items [] b vs (idx + 1) (idx + 1) []
          simp [hh, Bind.bind, Except.bind, ih, handlePullItem, parseItemsPull_nil]
    · have ih := pvl_pull_items [] b vars start (idx + 1) (c :: cur)
      simp only [parsePullBodyAux, escItemsAux, if_neg hc]
      exact ih
  | c :: d :: r, b, vars, start, idx, cur => by
    by_cases hc : c = ';'
    · subst hc
      by_cases he : cur.reverse = []
      · have ih := pvl_pull_items (d :: r) b vars (idx + 1) (idx + 1) []
        simp only [parsePullBodyAux, escItemsAux, List.filter_cons, he, List.isEmpty_nil,
          Bool.not_true, Bool.false_eq_true, not_false_eq_true, reduceIte]
        rw [show handlePullItem b start vars [] = .ok vars from rfl]
        simp [Bind.bind, Except.bind, ih, handlePullItem, parseItemsPull_nil]
      · have hne := isEmpty_false_of_ne _ he
        simp only [parsePullBodyAux, escItemsAux, List.filter_cons, hne,
          Bool.not_false, if_true, parseItemsPull_cons]
        rcases hh : handlePullItem b start vars cur.reverse with e | vs
        · simp [hh, Bind.bind, Except.bind]
        · have ih := pvl_pull_items (d :: r) b vs (idx + 1) (idx + 1) []
          simp [hh, Bind.bind, Except.bind, ih, handlePullItem, parseItemsPull_nil]
    · by_cases hb : c = '\\'
      · subst hb
        have ih := pvl_pull_items r b vars start (idx + 2) (d :: '\\' :: cur)
        simp only [parsePullBodyAux, escItemsAux, if_neg hc, if_pos rfl]
        exact ih
      · have ih := pvl_pull_items (d :: r) b vars start (idx + 1) (c :: cur)
        simp only [parsePullBodyAux, escItemsAux, if_neg hc, if_neg hb]
        exact ih

theorem validateVarname_error_kind (n : List Char) (p : Nat) (e : ParseError)
    (h : validateVarname n p = .error e) : e.kind = .invalidField := by
  unfold validateVarname at h
  split_ifs at h <;> injection h with h2 <;> rw [← h2]

theorem handlePullItem_ok (b st : Nat) (vars : List (List Char)) (item : List Char)
    (vs : List (List Char)) (hne : item ≠ [])
    (h : handlePullItem b st vars item = .ok vs) : vs = vars ++ [item] := by
  unfold handlePullItem at h
  rw [if_neg hne] at h
  rcases hv : validateVarname item (b + 1 + st) with e | u
  · rw [hv] at h
    simp [Bind.bind, Except.bind] at h
  · rw [hv] at h
    simp only [Bind.bind, Except.bind] at h
    split at h
    · simp [throw, throwThe, MonadExceptOf.throw] at h
    · simp [pure, Except.pure] at h
      exact h.symm

theorem handlePullItem_error_kind (b st : Nat) (vars : List (List Char)) (item : List Char)
    (e : ParseError) (h : handlePullItem b st vars item = .error e) :
    e.kind = .invalidField ∨ e.kind = .tooManyItems := by
  unfold handlePullItem at h
  by_cases h1 : item = []
  · rw [if_pos h1] at h
    exact Except.noConfusion h
  · rw [if_neg h1] at h
    rcases hv : validateVarname item (b + 1 + st) with e2 | u
    · rw [hv] at h
      simp only [Bind.bind, Except.bind] at h
      injection h with h2
      subst h2
      exact Or.inl (validateVarname_error_kind _ _ _ hv)
    · rw [hv] at h
      simp only [Bind.bind, Except.bind] at h
      by_cases h2 : MAX_VARIABLES ≤ vars.length
      · rw [if_pos h2] at h
        simp only [throw, throwThe, MonadExceptOf.throw] at h
        injection h with h3
        subst h3
        exact Or.inr rfl
      · rw [if_neg h2] at h
        simp [pure, Except.pure] at h

theorem parseItemsPull_ok_length :
    ∀ (items : List (Nat × List Char)) (b : Nat) (vars vs : List (List Char)),
      (∀ p ∈ items, p.2 ≠ []) → parseItemsPull b vars items = .ok vs →
      vs.length = vars.length + items.length
  | [], b, vars, vs => by
    intro _ h
    rw [parseItemsPull_nil] at h
    injection h with h2
    subst h2
    simp
  | (st, item) :: rest, b, vars, vs => by
    intro hall h
    rw [parseItemsPull_cons] at h
    rcases hh : handlePullItem b st vars item with e | vs1
    · rw [hh] at h
      simp [Except.bind] at h
    · rw [hh] at h
      simp only [Except.bind] at h
      have hitem : item ≠ [] := hall (st, item) (by simp)
      have hvs1 := handlePullItem_ok b st vars item vs1 hitem hh
      have ih := parseItemsPull_ok_length rest b vs1 vs
        (fun p hp => hall p (by simp [hp])) h
      rw [ih, hvs1]
      simp
      omega

theorem parseItemsPull_error_kind :
    ∀ (items : List (Nat × List Char)) (b : Nat) (vars : List (List Char)) (e : ParseError),
      parseItemsPull b vars items = .error e →
      e.kind = .invalidField ∨ e.kind = .tooManyItems
  | [], b, vars, e => by
    intro h
    rw [parseItemsPull_nil] at h
    exact Except.noConfusion h
  | (st, item) :: rest, b, vars, e => by
    intro h
    rw [parseItemsPull_cons] at h
    rcases hh : handlePullItem b st vars item with e2 | vs1
    · rw [hh] at h
      simp only [Except.bind] at h
      injection h with h2
      subst h2
      exact handlePullItem_error_kind b st vars item e2 hh
    · rw [hh] at h
      simp only [Except.bind] at h
      exact parseItemsPull_error_kind rest b vs1 e h

end TagoTiP


namespace TagoTiP

/-- C10: Empty items between unescaped semicolons in a variable block are silently
skipped rather than rejected. parse_variable_list (and the PULL body loop) coincide
with a reference that splits on unescaped semicolons and keeps only the non-empty
items; parse_pull_body fails with InvalidVariableBlock exactly when no non-empty
item remains; and concretely [a:=1;;b:=2] parses like [a:=1;b:=2], [a:=1;] parses
successfully, and [x;;y] yields exactly the items x and y. -/
theorem empty_items_silently_skipped :
    (∀ (s : List Char) (basePos : Nat) (pool : List MetaPair),
      parseVariableList s basePos pool = parseItemsPush basePos [] pool (nonEmptyItems s))
    ∧ (∀ (inner : List Char) (basePos : Nat),
      parsePullBodyAux basePos [] 0 0 [] inner = parseItemsPull basePos [] (nonEmptyItems inner))
    ∧ (∀ (inner : List Char) (basePos : Nat),
      errKind (parsePullBody ('[' :: (inner ++ [']'])) basePos) = some .invalidVariableBlock
        ↔ nonEmptyItems inner = [])
    ∧ parsePushBody (("[a:=1;;b:=2]").toList) 0
        = parsePushBody (("[a:=1;b:=2]").toList) 0
    ∧ (parsePushBody (("[a:=1;]").toList) 0).isOk = true
    ∧ parsePullBody (("[x;;y]").toList) 0 = .ok ⟨[("x").toList, ("y").toList]⟩ := by
  refine ⟨?_, ?_, ?_, by decide, by decide, by decide⟩
  · intro s basePos pool
    exact pvl_items s basePos [] pool 0 0 []
  · intro inner basePos
    exact pvl_pull_items inner basePos [] 0 0 []
  · intro inner b
    have hlast : ('[' :: (inner ++ [']'])).getLast? = some ']' := by
      rw [show '[' :: (inner ++ [']']) = ('[' :: inner) ++ [']'] by simp]
      exact List.getLast?_concat _
    unfold parsePullBody
    rw [if_pos ⟨rfl, hlast⟩]
    have hinner : (('[' :: (inner ++ [']'])).drop 1).dropLast = inner := by
      simp
    rw [hinner]
    by_cases hi : inner = []
    · subst hi
      simp [errKind, nonEmptyItems, escItems, escItemsAux, List.filter]
    · rw [if_neg hi]
      rw [pvl_pull_items inner b [] 0 0 []]
      have hne2 : ∀ p ∈ nonEmptyItems inner, p.2 ≠ [] := by
        intro p hp
        have := List.of_mem_filter hp
        simpa using this
      rcases hres : parseItemsPull b [] (nonEmptyItems inner) with e | vs
      · have hk := parseItemsPull_error_kind _ _ _ _ hres
        have h0 : nonEmptyItems inner ≠ [] := by
          intro h00
          rw [h00, parseItemsPull_nil] at hres
          exact Except.noConfusion hres
        simp only [nonEmptyItems, escItems] at hres ⊢
        simp [Bind.bind, Except.bind, hres, errKind]
        constructor
        · intro hh
          rcases hk with hk | hk <;> rw [hk] at hh <;> exact absurd hh (by simp)
        · intro hh
          exact absurd hh (by simpa [nonEmptyItems, escItems] using h0)
      · by_cases h0 : nonEmptyItems inner = []
        · rw [h0, parseItemsPull_nil] at hres
          injection hres with h2
          subst h2
          simp only [nonEmptyItems, escItems] at h0 ⊢
          simp [Bind.bind, Except.bind, h0, parseItemsPull_nil, errKind,
            throw, throwThe, MonadExceptOf.throw]
        · have hvs : vs ≠ [] := by
            have hlen := parseItemsPull_ok_length (nonEmptyItems inner) b [] vs hne2 hres
            intro h00
            rw [h00] at hlen
            simp at hlen
            exact h0 (List.length_eq_zero.mp hlen.symm)
          simp only [nonEmptyItems, escItems] at hres h0 ⊢
          simp [Bind.bind, Except.bind, hres, hvs, errKind, pure, Except.pure, h0]

end TagoTiP

namespace TagoTiP

theorem numFracCheck_cons_ne (c : Char) (f : List Char) (pos : Nat) (h : c ≠ '.') :
    numFracCheck (c :: f) pos = .error ⟨.invalidVariable, pos⟩ := by
  unfold numFracCheck
  split
  · next heq => exact absurd heq (by simp)
  · next f2 heq => injection heq with h1 _; exact absurd h1 h
  · rfl

theorem numFracCheck_ok (rest : List Char) (pos : Nat) :
    numFracCheck rest pos = .ok () ↔ FracForm rest := by
  constructor
  · intro h
    rcases rest with _ | ⟨c, f⟩
    · exact Or.inl rfl
    · by_cases hc : c = '.'
      · subst hc
        rcases f with _ | ⟨d, rest2⟩
        · exact absurd h (by simp [numFracCheck])
        · simp only [numFracCheck] at h
          by_cases hd : isAsciiDigit d = true
          · rw [if_pos hd] at h
            by_cases hr : rest2.dropWhile isAsciiDigit = []
            · refine Or.inr ⟨d :: rest2, rfl, by simp, ?_⟩
              have hall : ∀ x ∈ rest2, isAsciiDigit x = true :=
                List.dropWhile_eq_nil_iff.mp hr
              simp only [List.all_eq_true]
              intro x hx
              rcases List.mem_cons.mp hx with rfl | hx2
              · exact hd
              · exact hall x hx2
            · rw [if_neg hr] at h
              exact Except.noConfusion h
          · rw [if_neg hd] at h
            exact Except.noConfusion h
      · rw [numFracCheck_cons_ne c f pos hc] at h
        exact Except.noConfusion h
  · rintro (rfl | ⟨ds, rfl, hne, hall⟩)
    · rfl
    · match ds, hne with
      | d :: rest2, _ =>
        simp only [List.all_cons, Bool.and_eq_true] at hall
        simp only [numFracCheck, if_pos hall.1]
        rw [if_pos (List.dropWhile_eq_nil_iff.mpr (by
          intro x hx
          exact (List.all_eq_true.mp hall.2) x hx))]

theorem strip_sign_ne (c : Char) (r : List Char) (h : c ≠ '-') :
    (match c :: r with | '-' :: rr => rr | _ => c :: r) = c :: r := by
  split
  · next heq => injection heq with h1 _; exact absurd h1 h
  · rfl

end TagoTiP

namespace TagoTiP

theorem dropWhile_all_append (p : Char → Bool) :
    ∀ (ds t : List Char), ds.all p = true → (ds ++ t).dropWhile p = t.dropWhile p
  | [], t, _ => rfl
  | d :: ds, t, h => by
    simp only [List.all_cons, Bool.and_eq_true] at h
    simp only [List.cons_append, List.dropWhile_cons, h.1, if_true]
    exact dropWhile_all_append p ds t h.2

theorem fracform_dropWhile (frac : List Char) (h : FracForm frac) :
    frac.dropWhile isAsciiDigit = frac := by
  rcases h with rfl | ⟨ds, rfl, _, _⟩
  · rfl
  · rw [List.dropWhile_cons, if_neg (by decide)]

theorem intfrac_iff (c : Char) (r : List Char) (pos : Nat) :
    (if c = '0' then numFracCheck r pos
     else if isOneNine c then numFracCheck (r.dropWhile isAsciiDigit) pos
     else (.error ⟨.invalidVariable, pos⟩ : Except ParseError Unit)) = .ok ()
    ↔ ∃ intp frac, IntPartForm intp ∧ FracForm frac ∧ c :: r = intp ++ frac := by
  by_cases h0 : c = '0'
  · subst h0
    rw [if_pos rfl, numFracCheck_ok]
    constructor
    · intro hf
      exact ⟨['0'], r, Or.inl rfl, hf, rfl⟩
    · rintro ⟨intp, frac, hint, hfrac, heq⟩
      rcases hint with rfl | ⟨c2, ds, rfl, h19, _⟩
      · rw [List.singleton_append] at heq
        injection heq with _ h2
        rw [h2]
        exact hfrac
      · rw [List.cons_append] at heq
        injection heq with h1 _
        rw [← h1] at h19
        exact absurd h19 (by decide)
  · rw [if_neg h0]
    by_cases h19 : isOneNine c = true
    · rw [if_pos h19, numFracCheck_ok]
      constructor
      · intro hf
        refine ⟨c :: r.takeWhile isAsciiDigit, r.dropWhile isAsciiDigit,
          Or.inr ⟨c, r.takeWhile isAsciiDigit, rfl, h19, ?_⟩, hf, ?_⟩
        · simp only [List.all_eq_true]
          intro x hx
          exact List.mem_takeWhile_imp hx
        · rw [List.cons_append, List.takeWhile_append_dropWhile]
      · rintro ⟨intp, frac, hint, hfrac, heq⟩
        rcases hint with rfl | ⟨c2, ds, rfl, h192, hall⟩
        · rw [List.singleton_append] at heq
          injection heq with h1 _
          exact absurd h1 h0
        · rw [List.cons_append] at heq
          injection heq with h1 h2
          rw [h2, dropWhile_all_append _ ds frac hall, fracform_dropWhile frac hfrac]
          exact hfrac
    · rw [if_neg h19]
      constructor
      · intro hf
        exact Except.noConfusion hf
      · rintro ⟨intp, frac, hint, hfrac, heq⟩
        rcases hint with rfl | ⟨c2, ds, rfl, h192, _⟩
        · rw [List.singleton_append] at heq
          injection heq with h1 _
          exact absurd h1 h0
        · rw [List.cons_append] at heq
          injection heq with h1 _
          rw [← h1] at h192
          exact absurd h192 h19

theorem numberform_nosign (c : Char) (r : List Char) (hc : c ≠ '-') :
    NumberForm (c :: r)
      ↔ ∃ intp frac, IntPartForm intp ∧ FracForm frac ∧ c :: r = intp ++ frac := by
  constructor
  · rintro ⟨sign, intp, frac, hs, hint, hfrac, heq⟩
    rcases hs with rfl | rfl
    · rw [List.nil_append] at heq
      exact ⟨intp, frac, hint, hfrac, heq⟩
    · rw [List.singleton_append] at heq
      injection heq with h1 _
      exact absurd h1 hc
  · rintro ⟨intp, frac, hint, hfrac, heq⟩
    exact ⟨[], intp, frac, Or.inl rfl, hint, hfrac, by rw [List.nil_append]; exact heq⟩

theorem numberform_minus (r : List Char) :
    NumberForm ('-' :: r)
      ↔ ∃ intp frac, IntPartForm intp ∧ FracForm frac ∧ r = intp ++ frac := by
  constructor
  · rintro ⟨sign, intp, frac, hs, hint, hfrac, heq⟩
    rcases hs with rfl | rfl
    · rw [List.nil_append] at heq
      rcases hint with rfl | ⟨c2, ds, rfl, h192, _⟩
      · rw [List.singleton_append] at heq
        injection heq with h1 _
        exact absurd h1.symm (by decide)
      · rw [List.cons_append] at heq
        injection heq with h1 _
        rw [← h1] at h192
        exact absurd h192 (by decide)
    · rw [List.singleton_append] at heq
      injection heq with _ h2
      exact ⟨intp, frac, hint, hfrac, h2⟩
  · rintro ⟨intp, frac, hint, hfrac, heq⟩
    exact ⟨['-'], intp, frac, Or.inr rfl, hint, hfrac, by rw [heq]; rfl⟩

theorem validateNumber_cons_ne (c : Char) (r : List Char) (pos : Nat) (h : c ≠ '-') :
    validateNumber (c :: r) pos
      = (if c = '0' then numFracCheck r pos
         else if isOneNine c then numFracCheck (r.dropWhile isAsciiDigit) pos
         else .error ⟨.invalidVariable, pos⟩) := by
  unfold validateNumber
  split
  · next heq => injection heq with h1 _; exact absurd h1 h
  · rfl

theorem validateNumber_ok_iff (s : List Char) (pos : Nat) :
    validateNumber s pos = .ok () ↔ NumberForm s := by
  rcases s with _ | ⟨c, r⟩
  · constructor
    · intro h
      rw [show validateNumber [] pos = .error ⟨.invalidVariable, pos⟩ from rfl] at h
      exact Except.noConfusion h
    · rintro ⟨sign, intp, frac, hs, hint, hfrac, heq⟩
      rcases hint with rfl | ⟨c2, ds, rfl, _, _⟩ <;> rcases hs with rfl | rfl <;> simp at heq
  · by_cases hc : c = '-'
    · subst hc
      rcases r with _ | ⟨c2, r2⟩
      · constructor
        · intro h
          rw [show validateNumber ['-'] pos = .error ⟨.invalidVariable, pos⟩ from rfl] at h
          exact Except.noConfusion h
        · rw [numberform_minus]
          rintro ⟨intp, frac, hint, hfrac, heq⟩
          rcases hint with rfl | ⟨c2, ds, rfl, _, _⟩ <;> simp at heq
      · rw [show validateNumber ('-' :: c2 :: r2) pos
            = (if c2 = '0' then numFracCheck r2 pos
               else if isOneNine c2 then numFracCheck (r2.dropWhile isAsciiDigit) pos
               else .error ⟨.invalidVariable, pos⟩) from rfl]
        rw [intfrac_iff, numberform_minus]
    · rw [validateNumber_cons_ne c r pos hc, intfrac_iff, numberform_nosign c r hc]

end TagoTiP

namespace TagoTiP

/-- C9 amended: validate_number accepts exactly the strings of the regular
form given in the spec, with an optional minus sign, an integer part that is
0 or starts 1-9, and an optional dot-digits fraction; that form includes -0,
which the code therefore accepts rather than rejects. Leading zeros such as
01, a trailing dot, a lone leading dot as in .5, and the empty value are
rejected with InvalidVariable. -/
theorem validate_number_exactly_regular_form :
    (∀ (s : List Char) (pos : Nat), validateNumber s pos = .ok () ↔ NumberForm s)
    ∧ errKind (validateNumber (("01").toList) 0) = some .invalidVariable
    ∧ errKind (validateNumber (("1.").toList) 0) = some .invalidVariable
    ∧ errKind (validateNumber ((".5").toList) 0) = some .invalidVariable
    ∧ errKind (validateNumber [] 0) = some .invalidVariable
    ∧ validateNumber (("-0").toList) 0 = .ok () := by
  exact ⟨validateNumber_ok_iff, by decide, by decide, by decide, by decide, by decide⟩

end TagoTiP

namespace TagoTiP

set_option maxRecDepth 10000 in
/-- C7 amended: one-over-cap inputs are rejected, but the error kind follows
the field's own validator: a 101st variable and a 33rd meta pair yield
TooManyItems; a 101-byte name or group and a 26-byte unit yield InvalidField;
a 101-byte serial yields InvalidSerial, a 101-byte meta key yields
InvalidMetadata (not InvalidField as claimed); an input over 16,384 bytes
yields FrameTooLarge. -/
theorem one_over_cap_error_kinds :
    errKind (parsePushBody ('[' :: (joinSep ';' (List.replicate 101 (("a:=1").toList)) ++ [']'])) 0)
      = some .tooManyItems
    ∧ errKind (parseMetadata (joinSep ',' (List.replicate 33 (("k=v").toList))) 0)
      = some .tooManyItems
    ∧ errKind (parseVariable (List.replicate 101 'a' ++ (":=1").toList) 0) = some .invalidField
    ∧ errKind (parseVariable (("a:=1^").toList ++ List.replicate 101 'g') 0) = some .invalidField
    ∧ errKind (parseVariable (("a:=1#").toList ++ List.replicate 26 'u') 0) = some .invalidField
    ∧ errKind (parseUplink (("PUSH|ate2bd319014b24e0a8aca9f00aea4c0d0|").toList
        ++ List.replicate 101 's' ++ ("|[a:=1]").toList)) = some .invalidSerial
    ∧ errKind (parseMetadata (List.replicate 101 'k' ++ ("=v").toList) 0) = some .invalidMetadata
    ∧ errKind (parseUplink (List.replicate 16385 'a')) = some .frameTooLarge := by
  refine ⟨by decide, by decide, by decide, by decide, by decide, by decide, by decide, ?_⟩
  rw [parseUplink_frameTooLarge _ (contains_nul_replicate 16385)
    (by simp only [List.length_replicate]; decide)]
  rfl

end TagoTiP

namespace TagoTiP

theorem foldl_digits_ofDigits :
    ∀ (D : List Nat), D.foldl (fun a d => a * 10 + d) 0 = Nat.ofDigits 10 D.reverse := by
  intro D
  induction D using List.reverseRecOn with
  | nil => simp [Nat.ofDigits]
  | append_singleton D d ih =>
    rw [List.foldl_append, List.reverse_append]
    simp only [List.foldl_cons, List.foldl_nil, List.reverse_singleton, List.singleton_append,
      Nat.ofDigits_cons]
    rw [ih]
    ring

theorem parseU32Aux_spec :
    ∀ (l : List Char) (r n : Nat), r ≤ 4294967295 → parseU32Aux r l = some n →
      l.all isAsciiDigit = true ∧ n ≤ 4294967295
        ∧ n = l.foldl (fun a c => a * 10 + (c.toNat - 48)) r
  | [], r, n => by
    intro hr h
    simp only [parseU32Aux] at h
    injection h with h2
    subst h2
    exact ⟨rfl, hr, rfl⟩
  | c :: rest, r, n => by
    intro hr h
    simp only [parseU32Aux] at h
    by_cases hd : isAsciiDigit c = true
    · rw [if_pos hd] at h
      by_cases hm : 4294967295 < r * 10
      · rw [if_pos hm] at h
        exact Option.noConfusion h
      · rw [if_neg hm] at h
        by_cases ha : 4294967295 < r * 10 + (c.toNat - 48)
        · rw [if_pos ha] at h
          exact Option.noConfusion h
        · rw [if_neg ha] at h
          have ih := parseU32Aux_spec rest (r * 10 + (c.toNat - 48)) n (by omega) h
          exact ⟨by simp [List.all_cons, hd, ih.1], ih.2.1, by
            rw [List.foldl_cons]; exact ih.2.2⟩
    · rw [if_neg hd] at h
      exact Option.noConfusion h

theorem u32DigitsAux_digits :
    ∀ (fuel v : Nat) (acc : List Char), v < 10 ^ fuel →
      u32DigitsAux fuel v acc
        = ((Nat.digits 10 v).reverse.map (fun d => Char.ofNat (48 + d))) ++ acc
  | 0, v, acc => by
    intro hv
    have : v = 0 := by omega
    subst this
    simp [u32DigitsAux]
  | fuel + 1, v, acc => by
    intro hv
    by_cases h0 : v = 0
    · subst h0
      simp [u32DigitsAux]
    · simp only [u32DigitsAux, if_neg h0]
      have hdiv : v / 10 < 10 ^ fuel := by
        rw [Nat.div_lt_iff_lt_mul (by norm_num)]
        calc v < 10 ^ (fuel + 1) := hv
        _ = 10 ^ fuel * 10 := by ring
      rw [u32DigitsAux_digits fuel (v / 10) _ hdiv]
      rw [Nat.digits_def' (by norm_num : (1:Nat) < 10) (Nat.pos_of_ne_zero h0)]
      simp [List.reverse_cons]

theorem u32Digits_canonical (num : List Char) (n : Nat)
    (hall : num.all isAsciiDigit = true) (hne : num ≠ [])
    (hlz : num.head? = some '0' → num = ['0'])
    (hval : num.foldl (fun a c => a * 10 + (c.toNat - 48)) 0 = n)
    (hbound : n ≤ 4294967295) :
    u32Digits n = num := by
  by_cases h00 : num = ['0']
  · subst h00
    have : n = 0 := by
      rw [← hval]
      decide
    subst this
    rfl
  · have hdig : ∀ c ∈ num, isAsciiDigit c = true := List.all_eq_true.mp hall
    have hD : n = Nat.ofDigits 10 (num.map (fun c => c.toNat - 48)).reverse := by
      rw [← hval, ← foldl_digits_ofDigits, List.foldl_map]
    have hlt : ∀ d ∈ (num.map (fun c => c.toNat - 48)).reverse, d < 10 := by
      intro d hd
      rw [List.mem_reverse, List.mem_map] at hd
      obtain ⟨c, hc, rfl⟩ := hd
      have := hdig c hc
      simp only [isAsciiDigit, Bool.and_eq_true, decide_eq_true_eq] at this
      omega
    have hDne : (num.map (fun c => c.toNat - 48)).reverse ≠ [] := by
      simp [hne]
    have hlast : ∀ h : (num.map (fun c => c.toNat - 48)).reverse ≠ [],
        ((num.map (fun c => c.toNat - 48)).reverse).getLast h ≠ 0 := by
      intro h
      rw [List.getLast_reverse]
      rcases num with _ | ⟨c0, rest⟩
      · exact absurd rfl hne
      · simp only [List.map_cons, List.head_cons]
        intro hz
        have hc0 : c0.toNat - 48 = 0 := hz
        have := hdig c0 (by simp)
        simp only [isAsciiDigit, Bool.and_eq_true, decide_eq_true_eq] at this
        have : c0.toNat = 48 := by omega
        have hc00 : c0 = '0' := by
          have hv := congrArg Char.ofNat this
          rw [Char.ofNat_toNat] at hv
          exact hv
        exact h00 (hlz (by simp [hc00]))
    have hdigits : Nat.digits 10 n = (num.map (fun c => c.toNat - 48)).reverse := by
      rw [hD]
      exact Nat.digits_ofDigits 10 (by norm_num) _ hlt hlast
    have hn0 : n ≠ 0 := by
      intro h0
      rw [h0] at hdigits
      exact hDne (by rw [← hdigits]; simp)
    rw [u32Digits, if_neg hn0]
    rw [u32DigitsAux_digits 10 n [] (by omega)]
    rw [hdigits, List.reverse_reverse, List.append_nil, List.map_map]
    conv_rhs => rw [← List.map_id num]
    apply List.map_congr_left
    intro c hc
    have := hdig c hc
    simp only [isAsciiDigit, Bool.and_eq_true, decide_eq_true_eq] at this
    simp only [Function.comp_apply, id_eq]
    rw [show 48 + (c.toNat - 48) = c.toNat by omega, Char.ofNat_toNat]

end TagoTiP

namespace TagoTiP

theorem parseU32_canonical (num : List Char) (n : Nat)
    (h : parseU32 num = some n)
    (hlz : ¬(1 < num.length ∧ num.head? = some '0')) :
    num = u32Digits n := by
  rw [parseU32] at h
  by_cases hne : num = []
  · rw [if_pos hne] at h
    exact Option.noConfusion h
  · rw [if_neg hne] at h
    have hs := parseU32Aux_spec num 0 n (by omega) h
    refine (u32Digits_canonical num n hs.1 hne ?_ hs.2.2.symm hs.2.1).symm
    intro hh
    push_neg at hlz
    have hlen : ¬ 1 < num.length := fun hgt => (hlz hgt) hh
    rcases num with _ | ⟨c0, rest⟩
    · exact absurd rfl hne
    · rcases rest with _ | ⟨c1, rest2⟩
      · simp only [List.head?_cons, Option.some_inj] at hh
        rw [hh]
      · simp at hlen

theorem parseSeq_cons_ne (c : Char) (num : List Char) (pos : Nat) (h : c ≠ '!') :
    parseSeq (c :: num) pos = .error ⟨.invalidSeq, pos⟩ := by
  unfold parseSeq
  split
  · next heq => injection heq with h1 _; exact absurd h1 h
  · rfl

theorem parseSeq_ok (s : List Char) (pos n : Nat) (h : parseSeq s pos = .ok n) :
    s = '!' :: u32Digits n := by
  rcases s with _ | ⟨c, num⟩
  · exact absurd h (by simp [parseSeq])
  · by_cases hc : c = '!'
    · subst hc
      simp only [parseSeq] at h
      by_cases h1 : num = []
      · rw [if_pos h1] at h
        exact Except.noConfusion h
      · rw [if_neg h1] at h
        by_cases h2 : 1 < num.length ∧ num.head? = some '0'
        · rw [if_pos h2] at h
          exact Except.noConfusion h
        · rw [if_neg h2] at h
          rcases hu : parseU32 num with _ | m
          · rw [hu] at h
            exact Except.noConfusion h
          · rw [hu] at h
            injection h with h3
            subst h3
            rw [← parseU32_canonical num m hu h2]
    · rw [parseSeq_cons_ne c num pos hc] at h
      exact Except.noConfusion h

theorem parseAckStatus_ok (f : List Char) (st : AckStatus)
    (h : parseAckStatus f = .ok st) : f = statusChars st := by
  simp only [parseAckStatus] at h
  split_ifs at h with h1 h2 h3 h4
  · injection h with h5; subst h5; rw [h1]; rfl
  · injection h with h5; subst h5; rw [h2]; rfl
  · injection h with h5; subst h5; rw [h3]; rfl
  · injection h with h5; subst h5; rw [h4]; rfl

theorem parseAckDetail_ok (f : List Char) (st : AckStatus) (d : AckDetail)
    (h : parseAckDetail f st = .ok d)
    (hcount : ∀ m, d = .count m → f = u32Digits m) :
    detailChars d = f := by
  cases st with
  | ok =>
    simp only [parseAckDetail] at h
    by_cases hb : f.head? = some '['
    · rw [if_pos hb] at h
      injection h with h2
      subst h2
      rfl
    · rw [if_neg hb] at h
      rcases hu : parseU32 f with _ | m
      · rw [hu] at h
        injection h with h2
        subst h2
        rfl
      · rw [hu] at h
        injection h with h2
        subst h2
        exact (hcount m rfl).symm
  | pong =>
    simp only [parseAckDetail] at h
    injection h with h2
    subst h2
    rfl
  | cmd =>
    simp only [parseAckDetail] at h
    injection h with h2
    subst h2
    rfl
  | err =>
    simp only [parseAckDetail] at h
    injection h with h2
    subst h2
    rfl

end TagoTiP

namespace TagoTiP

theorem joinSep_merge (sep : Char) :
    ∀ (A : List (List Char)) (x y : List Char),
      joinSep sep (A ++ [x, y]) = joinSep sep (A ++ [x ++ sep :: y])
  | [], x, y => by simp [joinSep]
  | [a], x, y => by simp [joinSep]
  | a :: b :: A, x, y => by
    have ih := joinSep_merge sep (b :: A) x y
    simp only [List.cons_append, joinSep] at ih ⊢
    exact congrArg (fun t => a ++ sep :: t) ih

theorem joinSep_splitFieldsAux :
    ∀ (l : List Char) (fields : List (List Char)) (cur : List Char),
      joinSep '|' (splitFieldsAux fields cur l)
        = joinSep '|' (fields ++ [cur.reverse ++ l])
  | [], fields, cur => by simp [splitFieldsAux]
  | [c], fields, cur => by
    by_cases hc : c = '|'
    · subst hc
      by_cases hlen : (fields ++ [cur.reverse]).length = MAX_UPLINK_FIELDS - 1
      · simp only [splitFieldsAux, reduceIte, if_pos hlen, List.reverse_nil,
          List.append_assoc, List.cons_append, List.nil_append]
        rw [joinSep_merge]
      · simp only [splitFieldsAux, reduceIte, if_neg hlen, List.reverse_nil,
          List.append_assoc, List.cons_append, List.nil_append]
        rw [joinSep_merge]
    · simp only [splitFieldsAux, if_neg hc]
      simp
  | c :: b :: r, fields, cur => by
    by_cases hc : c = '|'
    · subst hc
      by_cases hlen : (fields ++ [cur.reverse]).length = MAX_UPLINK_FIELDS - 1
      · simp only [splitFieldsAux, reduceIte, if_pos hlen, List.append_assoc,
          List.cons_append, List.nil_append]
        rw [joinSep_merge]
      · simp only [splitFieldsAux, reduceIte, if_neg hlen]
        rw [joinSep_splitFieldsAux (b :: r) (fields ++ [cur.reverse]) []]
        simp only [List.reverse_nil, List.nil_append, List.append_assoc,
          List.cons_append]
        rw [joinSep_merge]
    · by_cases hb : c = '\\'
      · subst hb
        simp only [splitFieldsAux, if_neg hc, reduceIte]
        rw [joinSep_splitFieldsAux r fields (b :: '\\' :: cur)]
        simp
      · simp only [splitFieldsAux, if_neg hc, if_neg hb]
        rw [joinSep_splitFieldsAux (b :: r) fields (c :: cur)]
        simp

theorem joinSep_splitFields (S : List Char) : joinSep '|' (splitFields S) = S := by
  rw [splitFields, joinSep_splitFieldsAux]
  simp [joinSep]

end TagoTiP

namespace TagoTiP

theorem ackFromFields_roundtrip (fs : List (List Char)) (F : AckFrame)
    (hp : ackFromFields fs = .ok F)
    (hn : fs.length = 2 + (match F.seq with | some _ => 1 | none => 0)
        + (match F.detail with | some _ => 1 | none => 0))
    (hc : match F.detail with
      | some (.count n) => fs.getLast? = some (u32Digits n)
      | _ => True) :
    buildAck F = joinSep '|' fs := by
  rcases fs with _ | ⟨f0, _ | ⟨f1, _ | ⟨f2, _ | ⟨f3, rest4⟩⟩⟩⟩
  · exact absurd hp (by simp [ackFromFields])
  · simp only [ackFromFields] at hp
    split_ifs at hp
  · simp only [ackFromFields] at hp
    by_cases h0 : f0 = "ACK".toList
    · rw [if_neg (not_not_intro h0)] at hp
      by_cases h1 : f1.head? = some '!'
      · rw [if_pos h1] at hp
        rcases hseq : parseSeq f1 4 with e | n
        · simp [hseq, Bind.bind, Except.bind] at hp
        · simp [hseq, Bind.bind, Except.bind, throw, throwThe,
            MonadExceptOf.throw] at hp
      · rw [if_neg h1] at hp
        rcases hst : parseAckStatus f1 with e | st
        · simp [hst, Bind.bind, Except.bind] at hp
        · simp only [hst, Bind.bind, Except.bind, pure, Except.pure] at hp
          injection hp with hF
          subst hF
          have hf1 := parseAckStatus_ok f1 st hst
          subst h0 hf1
          simp [buildAck, joinSep]
    · rw [if_pos h0] at hp
      exact Except.noConfusion hp
  · simp only [ackFromFields] at hp
    by_cases h0 : f0 = "ACK".toList
    · rw [if_neg (not_not_intro h0)] at hp
      by_cases h1 : f1.head? = some '!'
      · rw [if_pos h1] at hp
        rcases hseq : parseSeq f1 4 with e | n
        · simp [hseq, Bind.bind, Except.bind] at hp
        · simp only [hseq, Bind.bind, Except.bind] at hp
          rcases hst : parseAckStatus f2 with e | st
          · simp [hst] at hp
          · simp only [hst, pure, Except.pure] at hp
            injection hp with hF
            subst hF
            have hf1 := parseSeq_ok f1 4 n hseq
            have hf2 := parseAckStatus_ok f2 st hst
            subst h0 hf1 hf2
            simp [buildAck, joinSep]
      · rw [if_neg h1] at hp
        rcases hst : parseAckStatus f1 with e | st
        · simp [hst, Bind.bind, Except.bind] at hp
        · simp only [hst, Bind.bind, Except.bind] at hp
          rcases hdet : parseAckDetail f2 st with e | d
          · simp [hdet] at hp
          · simp only [hdet, pure, Except.pure] at hp
            injection hp with hF
            subst hF
            have hf2d : detailChars d = f2 :=
              parseAckDetail_ok f2 st d hdet (fun m hm => by
                rw [hm] at hc
                simpa using hc)
            have hf1 := parseAckStatus_ok f1 st hst
            subst h0 hf1
            rw [← hf2d]
            simp [buildAck, joinSep]
    · rw [if_pos h0] at hp
      exact Except.noConfusion hp
  · simp only [ackFromFields] at hp
    by_cases h0 : f0 = "ACK".toList
    · rw [if_neg (not_not_intro h0)] at hp
      by_cases h1 : f1.head? = some '!'
      · rw [if_pos h1] at hp
        rcases hseq : parseSeq f1 4 with e | n
        · simp [hseq, Bind.bind, Except.bind] at hp
        · simp only [hseq, Bind.bind, Except.bind] at hp
          rcases hst : parseAckStatus f2 with e | st
          · simp [hst] at hp
          · simp only [hst] at hp
            rcases hdet : parseAckDetail f3 st with e | d
            · simp [hdet] at hp
            · simp only [hdet, pure, Except.pure] at hp
              injection hp with hF
              subst hF
              simp only [List.length_cons, List.length_append] at hn
              have hrest4 : rest4 = [] := by
                rw [List.length_eq_zero.symm]
                omega
              subst hrest4
              have hf3 : detailChars d = f3 :=
                parseAckDetail_ok f3 st d hdet (fun m hm => by
                  rw [hm] at hc
                  simpa using hc)
              have hf1 := parseSeq_ok f1 4 n hseq
              have hf2 := parseAckStatus_ok f2 st hst
              subst h0 hf1 hf2
              rw [← hf3]
              simp [buildAck, joinSep]
      · rw [if_neg h1] at hp
        rcases hst : parseAckStatus f1 with e | st
        · simp [hst, Bind.bind, Except.bind] at hp
        · simp only [hst, Bind.bind, Except.bind] at hp
          rcases hdet : parseAckDetail f2 st with e | d
          · simp [hdet] at hp
          · simp only [hdet, pure, Except.pure] at hp
            injection hp with hF
            subst hF
            simp only [List.length_cons] at hn
            omega
    · rw [if_pos h0] at hp
      exact Except.noConfusion hp

end TagoTiP

namespace TagoTiP

/-- C5 amended: the parse-then-build round trip on accepted ACK frames holds
exactly when parsing loses nothing: when the field count matches the frame
shape (no extra fields, which parse_ack silently drops) and a numeric OK
detail is written in canonical decimal (parse_ack also accepts redundant
leading zeros, which build_ack does not reproduce). Under those two
restrictions, build_ack returns the accepted input, modulo one stripped
trailing newline. -/
theorem parse_build_ack_roundtrip_restricted (B : List Char) (F : AckFrame)
    (hp : parseAck B = .ok F)
    (hn : (splitFields (stripNewline B)).length
        = 2 + (match F.seq with | some _ => 1 | none => 0)
            + (match F.detail with | some _ => 1 | none => 0))
    (hc : match F.detail with
      | some (.count n) => (splitFields (stripNewline B)).getLast? = some (u32Digits n)
      | _ => True) :
    buildAck F = stripNewline B := by
  have hp2 : ackFromFields (splitFields (stripNewline B)) = .ok F := by
    rw [parseAck, parseAckCore] at hp
    exact hp
  rw [← joinSep_splitFields (stripNewline B)]
  exact ackFromFields_roundtrip _ F hp2 hn hc

/-- C5 amended, witness: the round trip at a concrete sequenced OK ACK with
a canonical count detail. -/
theorem parse_build_ack_roundtrip_restricted_witness :
    parseAck (("ACK|!7|OK|3").toList) = .ok ⟨some 7, .ok, some (.count 3)⟩
    ∧ buildAck ⟨some 7, .ok, some (.count 3)⟩ = stripNewline (("ACK|!7|OK|3").toList) :=
  ⟨by decide, parse_build_ack_roundtrip_restricted _ _ (by decide) (by decide) (by decide)⟩

end TagoTiP
